import Mathlib

/-!
The printer of dbus-codegen-go.

A shallow embedding of `printer/print.go`, the code generator that turns an
interface model (interfaces, methods, properties, signals) into Go source
text, and theorems about the text it emits.

Conventions of the embedding

* Go strings and the `bytes.Buffer` contents are Lean `String`s.
* `fmt.Fprintf` is `Sprintf`, run character by character over the very
  templates of the source.
* A Go `for ... range` over a slice is `List.foldl` (or `rangeLoop` when the
  index is used); the buffer is passed explicitly.
* The registry `map[string][]*token.Signal` is an association list with
  pairwise distinct keys; the order in which `range` visits a map is not
  fixed by Go, so it is a parameter `rng` of the functions that iterate.
* `format.Source` and the output writer are parameters of `Print`.
-/

namespace Printer

/-! ## The interface model (package `token`) -/

/-- Modelled from the spec: the declaration of `token.Arg` is not part of the
sources at hand; an Argument is a (name, semantic-type) pair, read by
`print.go` through the fields `Name` and `Type`. -/
structure Arg where
  Name : String
  Type_ : String
  deriving DecidableEq, Repr

/-- Modelled from the spec: the declaration of `token.Method` is not part of
the sources at hand; a Method has a name, a derived identifier (`Type`), and
ordered input and output Arguments. -/
structure Method where
  Name : String
  Type_ : String
  In : List Arg
  Out : List Arg
  deriving DecidableEq, Repr

/-- Modelled from the spec: the declaration of `token.Property` is not part of
the sources at hand; a Property has a name, a derived identifier (`Type`), a
readability flag and one Argument for its value. -/
structure Property where
  Name : String
  Type_ : String
  Read : Bool
  Arg : Arg
  deriving DecidableEq, Repr

/-- Modelled from the spec: the declaration of `token.Signal` is not part of
the sources at hand; a Signal has a name, a derived identifier (`Type`) and
ordered Arguments. -/
structure Signal where
  Name : String
  Type_ : String
  Args : List Arg
  deriving DecidableEq, Repr

/-- Modelled from the spec: the declaration of `token.Interface` is not part
of the sources at hand; an Interface has a qualified name, a derived
identifier (`Type`), and ordered Methods, Properties and Signals. -/
structure Interface where
  Name : String
  Type_ : String
  Methods : List Method
  Properties : List Property
  Signals : List Signal
  deriving DecidableEq, Repr

/-! ## Formatted output (`fmt.Fprintf`) -/

/-- An operand of `Fprintf`: the templates of `print.go` are given strings and
one `int` (the payload index). -/
inductive Value where
  | str (s : String)
  | int (n : Int)
  deriving DecidableEq, Repr

/-- Go type name of an operand, as printed in a format error. -/
def Value.goType : Value → String
  | .str _ => "string"
  | .int _ => "int"

/-- Default rendering of an operand. -/
def Value.text : Value → String
  | .str s => s
  | .int n => toString n

/-- One verb applied to one operand: `%s` prints a string as it is, `%d` an
integer in decimal; `%s` on an integer and `%d` on a string print Go's
`%!verb(type=value)`. Other verbs are not modelled (the templates have none)
and are rendered the same way. -/
def formatVerb (verb : Char) (v : Value) : List Char :=
  match verb, v with
  | 's', .str s => s.data
  | 'd', .int n => (toString n).data
  | c, w => '%' :: '!' :: c :: '(' :: (w.goType.data ++ ('=' :: (w.text.data ++ [')'])))

/-- Operands left over when the format is exhausted: `%!(EXTRA type=value, ...)`. -/
def extraOperands : List Value → List Char
  | [] => []
  | v :: vs =>
    "%!(EXTRA ".data ++ (v.goType.data ++ ('=' :: (v.text.data ++
      ((vs.map fun w => ", ".data ++ (w.goType.data ++ ('=' :: w.text.data))).flatten ++ [')']))))

/-- The format interpreter: ordinary characters are copied, `%%` is a percent
sign, `%` followed by a verb consumes the next operand (`%!verb(MISSING)`
when none is left). Only plain verbs are modelled (no flags, width or
argument indexes): `print.go` uses `%s` and `%d` alone. -/
def sprintfAux : List Char → List Value → List Char
  | [], vs => extraOperands vs
  | ['%'], vs => "%!(NOVERB)".data ++ extraOperands vs
  | '%' :: '%' :: rest, vs => '%' :: sprintfAux rest vs
  | '%' :: c :: rest, [] => '%' :: '!' :: c :: ("(MISSING)".data ++ sprintfAux rest [])
  | '%' :: c :: rest, v :: vs => formatVerb c v ++ sprintfAux rest vs
  | c :: rest, vs => c :: sprintfAux rest vs

/-- The text `fmt.Fprintf` writes for a format and its operands. -/
def Sprintf (format : String) (v : List Value) : String :=
  ⟨sprintfAux format.data v⟩

/-! ## The text emitter -/

/-- The accumulating buffer: `type buffer struct { buf bytes.Buffer }`. -/
structure buffer where
  buf : String
  deriving DecidableEq, Repr

/-- The method `writef`: appends the formatted text (the count and error that
`Fprintf` returns are dropped by every caller). -/
def buffer.writef (b : buffer) (format : String) (v : List Value) : buffer :=
  ⟨b.buf ++ Sprintf format v⟩

/-- The method `writeln`: writes the fragments one after the other, then one
newline byte. -/
def buffer.writeln (b : buffer) (s : List String) : buffer :=
  let b1 : buffer := s.foldl (fun acc si => ⟨acc.buf ++ si⟩) b
  ⟨b1.buf ++ "\n"⟩

/-- The method `bytes`: the accumulated contents. -/
def buffer.bytes (b : buffer) : String :=
  b.buf

/-- Go's `for i, x := range xs` with the loop state passed along. -/
def rangeLoop {α σ : Type} (body : Nat → α → σ → σ) : Nat → List α → σ → σ
  | _, [], s => s
  | i, x :: xs, s => rangeLoop body (i + 1) xs (body i x s)

/-! ## The helpers `joinStoreArgs`, `joinArgs`, `joinArgNames` -/

/-- The function `joinStoreArgs`: `&name` for each argument, a comma before
every one but the first. -/
def joinStoreArgs (args : List Arg) : String :=
  rangeLoop (fun i (a : Arg) (acc : String) =>
    let acc1 := if i ≠ 0 then acc ++ "," else acc
    (acc1 ++ "&") ++ a.Name) 0 args ""

/-- The function `joinArgs`: `name type` followed by the separator, for each
argument. -/
def joinArgs (args : List Arg) (separator : Char) : String :=
  args.foldl (fun acc a =>
    (((acc ++ a.Name) ++ " ") ++ a.Type_) ++ String.singleton separator) ""

/-- The function `joinArgNames`: the names, a comma before every one but the
first. -/
def joinArgNames (args : List Arg) : String :=
  rangeLoop (fun i (a : Arg) (acc : String) =>
    let acc1 := if i ≠ 0 then acc ++ "," else acc
    acc1 ++ a.Name) 0 args ""

/-! ## The signal registry (`map[string][]*token.Signal`) -/

/-- Go's `error`; `nil` is `none`. -/
abbrev Error := String

/-- The registry, a Go map from interface name to that interface's signals:
the entries, with pairwise distinct keys. -/
abbrev SignalMap := List (String × List Signal)

/-- Map assignment `m[k] = v`: replaces the value when the key is present,
adds an entry otherwise. -/
def SignalMap.set (m : SignalMap) (k : String) (v : List Signal) : SignalMap :=
  if m.any (fun e => e.1 == k) then
    m.map (fun e => if e.1 = k then (k, v) else e)
  else
    m ++ [(k, v)]

/-- Map read `m[k]`. -/
def SignalMap.get (m : SignalMap) (k : String) : Option (List Signal) :=
  (m.find? (fun e => e.1 == k)).map Prod.snd

/-- An order in which `range` may visit a map: every entry once, in an order
Go does not specify. -/
def ValidRange (rng : SignalMap → List (String × List Signal)) : Prop :=
  ∀ m : SignalMap, (rng m).Perm m

/-! ## The templates of `print.go`, one list element per source line -/

/-- Template of the factory (source lines 91 to 94). -/
def factoryTemplate : String :=
  String.join [
    "// %s returns %s DBus interface implementation.\n",
    "func New%s(conn *dbus.Conn, dest string, path dbus.ObjectPath) *%s \x7b\n",
    "\treturn &%s\x7bconn.Object(dest, path)\x7d\n",
    "\x7d\n"]

/-- Template of the proxy type (source lines 96 to 99). -/
def proxyTemplate : String :=
  String.join [
    "// %s implements %s DBus interface.\n",
    "type %s struct \x7b\n",
    "\tobject dbus.BusObject\n",
    "\x7d\n"]

/-- Template of a method binding (source lines 106 to 110). -/
def methodTemplate : String :=
  String.join [
    "// %s calls %s.%s method.\n",
    "func(o *%s) %s(%s) (%serr error) \x7b\n",
    "\terr = o.object.Call(\"%s\", 0, %s).Store(%s)\n",
    "\treturn\n",
    "\x7d\n"]

/-- Template of a property accessor (source lines 120 to 124). -/
def propertyTemplate : String :=
  String.join [
    "// %s gets %s.%s property.\n",
    "func(o *%s) %s() (%s %s, err error) \x7b\n",
    "\to.object.Call(\"org.freedesktop.DBus.Properties.Get\", 0, \"%s\", \"%s\").Store(&%s)\n",
    "\treturn\n",
    "\x7d\n"]

/-- Template of a signal's event type (source lines 137 to 171). -/
def signalTemplate : String :=
  String.join [
    "// %s represents %s.%s signal.\n",
    "type %s struct \x7b\n",
    "\tsender string\n",
    "\tpath   dbus.ObjectPath\n",
    "\tbody   %sBody\n",
    "\x7d\n",
    "\n",
    "type %sBody struct \x7b\n",
    "\t%s\n",
    "\x7d\n",
    "\n",
    "// Name returns the signal's name.\n",
    "func (s *%s) Name() string \x7b\n",
    "\treturn \"%s\"\n",
    "\x7d\n",
    "\n",
    "// Interface returns the signal's interface.\n",
    "func (s *%s) Interface() string \x7b\n",
    "\treturn \"%s\"\n",
    "\x7d\n",
    "\n",
    "// Sender returns the signal's sender unique name.\n",
    "func (s *%s) Sender() string \x7b\n",
    "\treturn s.sender\n",
    "\x7d\n",
    "\n",
    "// Path returns path that emitted the signal. \n",
    "func (s *%s) Path() dbus.ObjectPath \x7b\n",
    "\treturn s.path\n",
    "\x7d\n",
    "\n",
    "// Body returns the signals' payload.\n",
    "func (s *%s) Body() %sBody \x7b\n",
    "\treturn s.body\n",
    "\x7d\n"]

/-- Template of the shared event contract (source lines 183 to 189). -/
def signalContractTemplate : String :=
  String.join [
    "// Signal is a common interface for all signals.\n",
    "type Signal interface \x7b\n",
    "\tName() string\n",
    "\tInterface() string\n",
    "\tSender() string\n",
    "\tPath() dbus.ObjectPath\n",
    "\x7d\n"]

/-- Template of the head of the lookup (source lines 191 to 193). -/
def lookupHeadTemplate : String :=
  String.join [
    "// LookupSignal converts the given raw DBus signal into typed one.\n",
    "func LookupSignal(signal *dbus.Signal) Signal \x7b\n",
    "\tswitch signal.Name \x7b\n"]

/-- Template of the head of one case clause (source lines 197 to 201). -/
def caseTemplate : String :=
  String.join [
    "\tcase \"%s.%s\":\n",
    "\t\treturn &%s\x7b\n",
    "\t\t\tsender: signal.Sender,\n",
    "\t\t\tpath:   signal.Path,\n",
    "\t\t\tbody:   %sBody\x7b\n"]

/-- Template of one payload entry (source line 204). -/
def payloadTemplate : String :=
  "\t\t\t\t%s: signal.Body[%d].(%s),\n"

/-- Template of the end of the lookup (source lines 210 to 213). -/
def lookupTailTemplate : String :=
  String.join [
    "\tdefault:\n",
    "\t\treturn nil\n",
    "\t\x7d\n",
    "\x7d\n"]

/-! ## The generator -/

/-- The function `writeHeader`: the banner, then per interface its name and
the non-empty lists of method, property and signal names, then the package
and import lines. It returns no error. -/
def writeHeader (buf : buffer) (pkgName : String) (ifaces : List Interface) :
    buffer × Option Error :=
  let buf := buf.writeln ["// Generated by dbusgen, don't edit!"]
  let buf := buf.writeln ["//"]
  let buf := rangeLoop (fun i (iface : Interface) (buf : buffer) =>
    let buf := if i ≠ 0 then buf.writeln ["//"] else buf
    let buf := buf.writeln ["// ", iface.Name]
    let buf :=
      if iface.Methods.length ≠ 0 then
        let buf := buf.writeln ["//   Methods"]
        iface.Methods.foldl (fun buf method => buf.writeln ["//     ", method.Name]) buf
      else buf
    let buf :=
      if iface.Properties.length ≠ 0 then
        let buf := buf.writeln ["//   Properties"]
        iface.Properties.foldl (fun buf prop => buf.writeln ["//     ", prop.Name]) buf
      else buf
    let buf :=
      if iface.Signals.length ≠ 0 then
        let buf := buf.writeln ["//   Signals"]
        iface.Signals.foldl (fun buf sig => buf.writeln ["//     ", sig.Name]) buf
      else buf
    buf) 0 ifaces buf
  let buf := buf.writeln ["package ", pkgName]
  let buf := buf.writeln ["import \"github.com/godbus/dbus\""]
  (buf, none)

/-- The function `writeIface`: factory, proxy type, one binding per method,
one accessor per readable property, the registry insert, one event type per
signal. It returns no error. -/
def writeIface (buf : buffer) (iface : Interface) (signals : SignalMap) :
    buffer × SignalMap × Option Error :=
  let buf := buf.writef factoryTemplate
    [.str iface.Type_, .str iface.Name, .str iface.Type_, .str iface.Type_, .str iface.Type_]
  let buf := buf.writef proxyTemplate
    [.str iface.Type_, .str iface.Name,
     .str iface.Type_]
  let buf := iface.Methods.foldl (fun buf method =>
    buf.writef methodTemplate
      [.str iface.Type_, .str iface.Name, .str method.Name,
       .str iface.Type_, .str method.Type_, .str (joinArgs method.In ','),
         .str (joinArgs method.Out ','),
       .str (iface.Name ++ "." ++ method.Type_), .str (joinArgNames method.In),
         .str (joinStoreArgs method.Out)]) buf
  let buf := iface.Properties.foldl (fun buf prop =>
    if prop.Read then
      buf.writef propertyTemplate
        [.str prop.Type_, .str iface.Name, .str prop.Name,
         .str iface.Type_, .str prop.Type_, .str prop.Arg.Name, .str prop.Arg.Type_,
         .str iface.Name, .str prop.Name, .str prop.Arg.Name]
    else buf) buf
  let signals := if iface.Signals.length > 0 then signals.set iface.Name iface.Signals else signals
  let buf := iface.Signals.foldl (fun buf sig =>
    buf.writef signalTemplate
      [.str sig.Type_, .str sig.Name, .str iface.Name,
       .str sig.Type_, .str sig.Type_, .str sig.Type_, .str (joinArgs sig.Args ';'),
       .str sig.Type_, .str sig.Name, .str sig.Type_, .str iface.Name, .str sig.Type_,
         .str sig.Type_,
       .str sig.Type_, .str sig.Type_]) buf
  (buf, signals, none)

/-- The function `writeSignalFuncs`: the shared event contract and the
lookup, with one case clause per signal of every registry entry, in the order
`rng` visits the registry. It returns no error. -/
def writeSignalFuncs (rng : SignalMap → List (String × List Signal)) (buf : buffer)
    (signals : SignalMap) : buffer × Option Error :=
  let buf := buf.writef signalContractTemplate []
  let buf := buf.writef lookupHeadTemplate []
  let buf := (rng signals).foldl (fun buf entry =>
    entry.2.foldl (fun buf sig =>
      let buf := buf.writef caseTemplate
        [.str entry.1, .str sig.Name, .str sig.Type_, .str sig.Type_]
      let buf := rangeLoop (fun i (arg : Arg) (buf : buffer) =>
        buf.writef payloadTemplate [.str arg.Name, .int i, .str arg.Type_]) 0 sig.Args buf
      let buf := buf.writeln ["\t\t\t\x7d,"]
      buf.writeln ["\t\t\x7d"]) buf) buf
  let buf := buf.writef lookupTailTemplate []
  (buf, none)

/-- The loop of `Print` over the interfaces (source lines 38 to 42): it stops
at the first error. -/
def writeIfaces : List Interface → buffer → SignalMap → buffer × SignalMap × Option Error
  | [], buf, signals => (buf, signals, none)
  | iface :: rest, buf, signals =>
    match writeIface buf iface signals with
    | (buf1, signals1, some err) => (buf1, signals1, some err)
    | (buf1, signals1, none) => writeIfaces rest buf1 signals1

/-- The first part of `Print` (source lines 33 to 47): the text assembled in
the buffer before it is normalized, or the error that stopped it. -/
def assemble (rng : SignalMap → List (String × List Signal)) (pkgName : String)
    (ifaces : List Interface) : Except Error buffer :=
  let buf : buffer := ⟨""⟩
  match writeHeader buf pkgName ifaces with
  | (_, some err) => .error err
  | (buf, none) =>
    let signals : SignalMap := []
    match writeIfaces ifaces buf signals with
    | (_, _, some err) => .error err
    | (buf, signals, none) =>
      if signals.length > 0 then
        match writeSignalFuncs rng buf signals with
        | (_, some err) => .error err
        | (buf, none) => .ok buf
      else .ok buf

/-- The function `Print`. `Source` is `format.Source`, `Write` the result of
`out.Write` on a given text. The result is the list of texts handed to
`out.Write`, in order, and the error returned. -/
def Print (Source : String → Except Error String) (Write : String → Option Error)
    (rng : SignalMap → List (String × List Signal)) (pkgName : String)
    (ifaces : List Interface) : List String × Option Error :=
  match assemble rng pkgName ifaces with
  | .error err => ([], some err)
  | .ok buf =>
    match Source buf.bytes with
    | .error err => ([], some err)
    | .ok b => ([b], Write b)

/-! ## The texts of the single writes

Each definition below is the text one `writef` call of the generator adds to
the buffer, with the operands of that call. -/

/-- Text of the first write of `writeIface`: the factory. -/
def factoryText (iface : Interface) : String :=
  Sprintf factoryTemplate
    [.str iface.Type_, .str iface.Name, .str iface.Type_, .str iface.Type_, .str iface.Type_]

/-- Text of the second write of `writeIface`: the proxy type. -/
def proxyText (iface : Interface) : String :=
  Sprintf proxyTemplate
    [.str iface.Type_, .str iface.Name,
     .str iface.Type_]

/-- Text `writeIface` writes for one method. -/
def methodText (iface : Interface) (method : Method) : String :=
  Sprintf methodTemplate
    [.str iface.Type_, .str iface.Name, .str method.Name,
     .str iface.Type_, .str method.Type_, .str (joinArgs method.In ','),
       .str (joinArgs method.Out ','),
     .str (iface.Name ++ "." ++ method.Type_), .str (joinArgNames method.In),
       .str (joinStoreArgs method.Out)]

/-- Text `writeIface` writes for one property whose `Read` flag is set. -/
def propertyText (iface : Interface) (prop : Property) : String :=
  Sprintf propertyTemplate
    [.str prop.Type_, .str iface.Name, .str prop.Name,
     .str iface.Type_, .str prop.Type_, .str prop.Arg.Name, .str prop.Arg.Type_,
     .str iface.Name, .str prop.Name, .str prop.Arg.Name]

/-- Text `writeIface` writes for one signal. -/
def signalText (iface : Interface) (sig : Signal) : String :=
  Sprintf signalTemplate
    [.str sig.Type_, .str sig.Name, .str iface.Name,
     .str sig.Type_, .str sig.Type_, .str sig.Type_, .str (joinArgs sig.Args ';'),
     .str sig.Type_, .str sig.Name, .str sig.Type_, .str iface.Name, .str sig.Type_,
       .str sig.Type_,
     .str sig.Type_, .str sig.Type_]

/-- Text `writeSignalFuncs` writes at the head of the case clause of one
signal of the registry entry `iface`. -/
def caseText (iface : String) (sig : Signal) : String :=
  Sprintf caseTemplate [.str iface, .str sig.Name, .str sig.Type_, .str sig.Type_]

/-- Text `writeSignalFuncs` writes for the payload entry at index `i`. -/
def payloadText (i : Nat) (arg : Arg) : String :=
  Sprintf payloadTemplate [.str arg.Name, .int i, .str arg.Type_]

/-- Number of positions of `text` at which `needle` occurs. -/
def occurrences (needle text : String) : Nat :=
  (text.data.tails.filter fun t => needle.data.isPrefixOf t).length

/-- Text `writeIface` adds for one interface: the concatenation of its writes. -/
def ifaceText (iface : Interface) : String :=
  factoryText iface ++ proxyText iface ++
    String.join (iface.Methods.map (methodText iface)) ++
    String.join ((iface.Properties.filter fun p => p.Read).map (propertyText iface)) ++
    String.join (iface.Signals.map (signalText iface))

/-- Text of the first write of `writeSignalFuncs`: the shared event contract. -/
def signalContractText : String :=
  Sprintf signalContractTemplate []

/-- Text of the second write of `writeSignalFuncs`: the head of the lookup. -/
def lookupHeadText : String :=
  Sprintf lookupHeadTemplate []

/-- Text of the last write of `writeSignalFuncs`: the `default` clause and the
closing braces. -/
def lookupTailText : String :=
  Sprintf lookupTailTemplate []

/-- Payload entries `writeSignalFuncs` writes for the arguments of one signal,
one per argument with its index. -/
def payloadEntries (args : List Arg) : List String :=
  args.enum.map fun e => payloadText e.1 e.2

/-- Text one pass of the inner loop of `writeSignalFuncs` adds: the case head,
the payload entries and the two closing lines. -/
def clauseText (iface : String) (sig : Signal) : String :=
  caseText iface sig ++ String.join (payloadEntries sig.Args) ++ "\t\t\t\x7d,\n" ++ "\t\t\x7d\n"

/-- The clauses of the lookup in the order they are written: for each registry
entry that `range` yields, its signals in order, each with the key of the
entry. -/
def lookupClauses (visited : List (String × List Signal)) : List (String × Signal) :=
  visited.flatMap fun entry => entry.2.map fun sig => (entry.1, sig)

/-- Text `writeSignalFuncs` adds for a registry visited in the given order. -/
def signalFuncsText (visited : List (String × List Signal)) : String :=
  signalContractText ++ lookupHeadText ++
    String.join ((lookupClauses visited).map fun c => clauseText c.1 c.2) ++ lookupTailText

/-- Text `writeHeader` writes into the empty buffer `Print` starts with. -/
def headerText (pkgName : String) (ifaces : List Interface) : String :=
  (writeHeader ⟨""⟩ pkgName ifaces).1.buf

/-- The registry once the loop of `Print` has processed every interface. -/
def registryOf (ifaces : List Interface) : SignalMap :=
  (writeIfaces ifaces ⟨""⟩ []).2.1

/-- The text `Print` has in its buffer when it calls `format.Source`: the
header, the text of each interface in order and, when the registry is not
empty, the text of `writeSignalFuncs`. -/
def assembledText (rng : SignalMap → List (String × List Signal)) (pkgName : String)
    (ifaces : List Interface) : String :=
  headerText pkgName ifaces ++ String.join (ifaces.map ifaceText) ++
    (if (registryOf ifaces).length > 0 then signalFuncsText (rng (registryOf ifaces)) else "")

/-- The labels of the case clauses of the lookup, in the order they are
written: the key of the registry entry, a dot, the name of the signal. -/
def caseLabels (visited : List (String × List Signal)) : List String :=
  (lookupClauses visited).map fun c => c.1 ++ "." ++ c.2.Name

/-! ## The header, as the specification words it -/

/-- A text made of lines: every line followed by one newline. -/
def linesText (lines : List String) : String :=
  String.join (lines.map fun l => l ++ "\n")

/-- A sub-list of the banner, following the specification: omitted entirely
when there is no name, else its heading line and one line per name. -/
def referenceSubList (heading : String) (names : List String) : List String :=
  if names = [] then [] else heading :: names.map fun n => "//     " ++ n

/-- The lines of the banner for one interface, following the specification: a
heading with the qualified name, then the sub-lists of method names, property
names and signal names. -/
def referenceIfaceLines (iface : Interface) : List String :=
  ["// " ++ iface.Name] ++
    referenceSubList "//   Methods" (iface.Methods.map fun m => m.Name) ++
    referenceSubList "//   Properties" (iface.Properties.map fun p => p.Name) ++
    referenceSubList "//   Signals" (iface.Signals.map fun sg => sg.Name)

/-- The lines before the `package` line, following the specification: the
fixed banner line, a `//` line, then the interfaces in input order, separated
by a `//` line. -/
def referencePreambleLines (ifaces : List Interface) : List String :=
  ["// Generated by dbusgen, don't edit!", "//"] ++
    List.intercalate ["//"] (ifaces.map referenceIfaceLines)

/-- The reference layout of the header: the preamble, the `package` line and
the import line. -/
def referenceHeader (pkgName : String) (ifaces : List Interface) : String :=
  linesText (referencePreambleLines ifaces ++
    ["package " ++ pkgName, "import \"github.com/godbus/dbus\""])

/-- The text holds no line break. -/
def NoLineBreak (s : String) : Prop :=
  '\n' ∉ s.data

/-- No interface, method, property or signal name of the model holds a line
break. -/
def NamesOnOneLine (ifaces : List Interface) : Prop :=
  ∀ iface ∈ ifaces, NoLineBreak iface.Name
    ∧ (∀ m ∈ iface.Methods, NoLineBreak m.Name)
    ∧ (∀ p ∈ iface.Properties, NoLineBreak p.Name)
    ∧ (∀ sg ∈ iface.Signals, NoLineBreak sg.Name)

/-! ## Example models -/

/-- An interface with one readable property and nothing else. -/
def versionIface : Interface :=
  { Name := "org.example.Demo", Type_ := "Demo", Methods := [],
    Properties := [{ Name := "Version", Type_ := "Version", Read := true,
                     Arg := { Name := "v", Type_ := "string" } }],
    Signals := [] }

/-- An interface with one method, a readable and a write-only property and one
signal with two arguments. -/
def demoIface : Interface :=
  { Name := "org.example.Demo", Type_ := "Demo",
    Methods := [{ Name := "Move", Type_ := "Move",
                  In := [{ Name := "x", Type_ := "int32" }, { Name := "y", Type_ := "int32" }],
                  Out := [{ Name := "ok", Type_ := "bool" }] }],
    Properties := [{ Name := "Version", Type_ := "Version", Read := true,
                     Arg := { Name := "v", Type_ := "string" } },
                   { Name := "Secret", Type_ := "Secret", Read := false,
                     Arg := { Name := "s", Type_ := "string" } }],
    Signals := [{ Name := "Changed", Type_ := "Changed",
                  Args := [{ Name := "value", Type_ := "string" },
                           { Name := "count", Type_ := "uint32" }] }] }

/-- Two interfaces that each declare a signal with the bare name `Changed`. -/
def twoIfaces : List Interface :=
  [{ Name := "org.example.A", Type_ := "A", Methods := [], Properties := [],
     Signals := [{ Name := "Changed", Type_ := "AChanged",
                   Args := [{ Name := "value", Type_ := "string" }] }] },
   { Name := "org.example.B", Type_ := "B", Methods := [], Properties := [],
     Signals := [{ Name := "Changed", Type_ := "BChanged",
                   Args := [{ Name := "value", Type_ := "string" }] }] }]

/-- A normalizer that accepts every text and leaves it as it is. -/
def acceptAll : String → Except Error String :=
  fun text => .ok text

/-- A normalizer that rejects every text. -/
def rejectAll : String → Except Error String :=
  fun _ => .error "expected declaration"

/-- A writer that takes every text. -/
def writeOk : String → Option Error :=
  fun _ => none

/-- The scenario of the specification: one method `GetValue` without inputs
and with one output of type string, one signal `Changed` with one argument
`value` of type string. -/
def scenarioIface : Interface :=
  { Name := "org.example.Demo", Type_ := "Demo",
    Methods := [{ Name := "GetValue", Type_ := "GetValue", In := [],
                  Out := [{ Name := "value", Type_ := "string" }] }],
    Properties := [],
    Signals := [{ Name := "Changed", Type_ := "Changed",
                  Args := [{ Name := "value", Type_ := "string" }] }] }

/-- The method of the test program: `GetId`, no inputs and one output. -/
def getIdMethod : Method :=
  { Name := "GetId", Type_ := "GetId", In := [], Out := [{ Name := "id", Type_ := "string" }] }

/-- The interface of the test program `test_single_method.go`. -/
def dbusIface : Interface :=
  { Name := "org.freedesktop.DBus", Type_ := "Org_Freedesktop_DBus",
    Methods := [getIdMethod], Properties := [], Signals := [] }

/-- Two interfaces of different names whose signals have the same identifier
`Changed`. -/
def collidingIfaces : List Interface :=
  [{ Name := "org.example.A", Type_ := "A", Methods := [], Properties := [],
     Signals := [{ Name := "Changed", Type_ := "Changed", Args := [] }] },
   { Name := "org.example.B", Type_ := "B", Methods := [], Properties := [],
     Signals := [{ Name := "Changed", Type_ := "Changed", Args := [] }] }]

/-- Two interfaces of different names, each with one signal, where the name of
one signal holds a dot. -/
def dottedIfaces : List Interface :=
  [{ Name := "org.example", Type_ := "Example", Methods := [], Properties := [],
     Signals := [{ Name := "Demo.Changed", Type_ := "DemoChanged", Args := [] }] },
   { Name := "org.example.Demo", Type_ := "Demo", Methods := [], Properties := [],
     Signals := [{ Name := "Changed", Type_ := "Changed", Args := [] }] }]

/-! ## Counting occurrences in assembled texts -/

/-- Number of positions of the list `t` at which the list `n` occurs;
`occurrences` is this count on the characters of two strings. -/
def occList (n t : List Char) : Nat :=
  (t.tails.filter fun s => n.isPrefixOf s).length

/-- The first character of `t`, if there is one, is no character of `n`. -/
def startsOutside (n t : List Char) : Bool :=
  match t.head? with
  | none => true
  | some c => !(n.contains c)

/-- The last character of `t`, if there is one, is no character of `n`. -/
def endsOutside (n t : List Char) : Bool :=
  match t.getLast? with
  | none => true
  | some c => !(n.contains c)

/-- The text `Signal` does not occur in `s`. -/
abbrev NoSignalWord (s : String) : Prop :=
  occurrences "Signal" s = 0

/-- No name and no type of the arguments holds the text `Signal`. -/
abbrev ArgsNoSignalWord (args : List Arg) : Prop :=
  ∀ a ∈ args, NoSignalWord a.Name ∧ NoSignalWord a.Type_

/-- No string of the model holds the text `Signal`: not the output name, and
no name, identifier or type of an interface, method, property, signal or
argument. -/
abbrev ModelNoSignalWord (pkgName : String) (ifaces : List Interface) : Prop :=
  NoSignalWord pkgName ∧ ∀ iface ∈ ifaces,
    NoSignalWord iface.Name ∧ NoSignalWord iface.Type_
    ∧ (∀ m ∈ iface.Methods, NoSignalWord m.Name ∧ NoSignalWord m.Type_
        ∧ ArgsNoSignalWord m.In ∧ ArgsNoSignalWord m.Out)
    ∧ (∀ p ∈ iface.Properties, NoSignalWord p.Name ∧ NoSignalWord p.Type_
        ∧ NoSignalWord p.Arg.Name ∧ NoSignalWord p.Arg.Type_)
    ∧ (∀ sg ∈ iface.Signals, NoSignalWord sg.Name ∧ NoSignalWord sg.Type_
        ∧ ArgsNoSignalWord sg.Args)

/-- A piece of fixed text that keeps `Signal` from straddling its borders: it
is not empty, does not hold `Signal`, and neither starts nor ends with a
letter of `Signal`. -/
abbrev Shield (t : String) : Prop :=
  NoSignalWord t ∧ t ≠ "" ∧ startsOutside "Signal".data t.data = true
    ∧ endsOutside "Signal".data t.data = true

/-- A needle the count is about: not empty, holding the word `Signal` and no
line break. -/
abbrev Needle (needle : String) : Prop :=
  needle.data ≠ [] ∧ "Signal".data <:+: needle.data ∧ '\n' ∉ needle.data

/-- A text in which the needle does not occur and whose last character, if
there is one, is no character of the needle: no occurrence starts in it and
runs on into what follows. -/
abbrev Sealed (needle t : String) : Prop :=
  occurrences needle t = 0 ∧ endsOutside needle.data t.data = true

/-- An interface without signals whose name is `type Signal interface` and
whose method is named `func LookupSignal`. -/
def needleIface : Interface :=
  { Name := "type Signal interface", Type_ := "T",
    Methods := [{ Name := "func LookupSignal", Type_ := "M", In := [], Out := [] }],
    Properties := [], Signals := [] }

/-- An interface without signals none of whose strings holds `func
LookupSignal`, with a property whose value binding is `myfunc` of type
`LookupSignalKind`. -/
def straddleIface : Interface :=
  { Name := "org.example.Demo", Type_ := "Demo", Methods := [],
    Properties := [{ Name := "Kind", Type_ := "Kind", Read := true,
                     Arg := { Name := "myfunc", Type_ := "LookupSignalKind" } }],
    Signals := [] }

/-! ## Texts and loops: auxiliary facts -/

theorem foldl_append_acc (l : List String) (acc : String) :
    l.foldl (fun r s => r ++ s) acc = acc ++ l.foldl (fun r s => r ++ s) "" := by
  induction l generalizing acc with
  | nil => simp
  | cons a l ih =>
    simp only [List.foldl_cons]
    rw [ih, ih ("" ++ a)]
    simp [String.append_assoc]

theorem join_nil : String.join [] = "" := rfl

theorem join_cons (a : String) (l : List String) :
    String.join (a :: l) = a ++ String.join l := by
  show List.foldl (fun r s => r ++ s) ("" ++ a) l = a ++ List.foldl (fun r s => r ++ s) "" l
  rw [foldl_append_acc]
  simp

theorem join_append (l₁ l₂ : List String) :
    String.join (l₁ ++ l₂) = String.join l₁ ++ String.join l₂ := by
  induction l₁ with
  | nil => simp [join_nil]
  | cons a l ih => simp [join_cons, ih, String.append_assoc]

theorem join_flatMap {α : Type} (f : α → List String) (xs : List α) :
    String.join (xs.flatMap f) = String.join (xs.map fun x => String.join (f x)) := by
  induction xs with
  | nil => rfl
  | cons x xs ih => simp [List.flatMap_cons, join_append, join_cons, ih]

theorem foldl_buffer_join {α : Type} (f : α → String) (xs : List α) (b : buffer) :
    xs.foldl (fun acc x => (⟨acc.buf ++ f x⟩ : buffer)) b
      = ⟨b.buf ++ String.join (xs.map f)⟩ := by
  induction xs generalizing b with
  | nil => simp [join_nil]
  | cons x xs ih => simp [ih, join_cons, String.append_assoc]

theorem foldl_writef {α : Type} (t : String) (ops : α → List Value) (xs : List α)
    (b : buffer) :
    xs.foldl (fun acc x => acc.writef t (ops x)) b
      = ⟨b.buf ++ String.join (xs.map fun x => Sprintf t (ops x))⟩ :=
  foldl_buffer_join (fun x => Sprintf t (ops x)) xs b

theorem foldl_writef_if {α : Type} (t : String) (ops : α → List Value) (p : α → Bool)
    (xs : List α) (b : buffer) :
    xs.foldl (fun acc x => if p x then acc.writef t (ops x) else acc) b
      = ⟨b.buf ++ String.join ((xs.filter p).map fun x => Sprintf t (ops x))⟩ := by
  induction xs generalizing b with
  | nil => simp [join_nil]
  | cons x xs ih =>
    cases hp : p x
    · simp [hp, ih]
    · simp only [List.foldl_cons, hp, if_true]
      rw [ih]
      simp [buffer.writef, List.filter_cons, hp, join_cons, String.append_assoc]

theorem writeln_buf (b : buffer) (s : List String) :
    (b.writeln s).buf = b.buf ++ String.join s ++ "\n" := by
  have h := foldl_buffer_join (fun x : String => x) s b
  simp only [List.map_id_fun, id_eq] at h
  simp [buffer.writeln, h]

theorem rangeLoop_append {α : Type} (f : Nat → α → String) (xs : List α) (i : Nat)
    (b : buffer) :
    rangeLoop (fun j x (acc : buffer) => (⟨acc.buf ++ f j x⟩ : buffer)) i xs b
      = ⟨b.buf ++ String.join (xs.enumFrom i |>.map fun e => f e.1 e.2)⟩ := by
  induction xs generalizing i b with
  | nil => simp [rangeLoop, join_nil]
  | cons x xs ih => simp [rangeLoop, ih, join_cons, String.append_assoc]

theorem intercalate_go_eq (acc sep : String) (l : List String) :
    String.intercalate.go acc sep l = acc ++ String.join (l.map fun x => sep ++ x) := by
  induction l generalizing acc with
  | nil => simp [String.intercalate.go, join_nil]
  | cons a l ih => simp [String.intercalate.go, ih, join_cons, String.append_assoc]

/-- After the first element the comma-separated loops add `,` and the item. -/
theorem rangeLoop_comma (f : Arg → String) (args : List Arg) (i : Nat) (hi : i ≠ 0)
    (acc : String) :
    rangeLoop (fun j (a : Arg) (r : String) => (if j ≠ 0 then r ++ "," else r) ++ f a)
        i args acc
      = acc ++ String.join (args.map fun a => "," ++ f a) := by
  induction args generalizing i acc with
  | nil => simp [rangeLoop, join_nil]
  | cons a args ih =>
    simp only [rangeLoop, hi, ne_eq, not_false_eq_true, if_true]
    rw [ih (i + 1) (Nat.succ_ne_zero i)]
    simp [join_cons, String.append_assoc]

theorem rangeLoop_intercalate (f : Arg → String) (args : List Arg) :
    rangeLoop (fun j (a : Arg) (r : String) => (if j ≠ 0 then r ++ "," else r) ++ f a)
        0 args ""
      = String.intercalate "," (args.map f) := by
  cases args with
  | nil => rfl
  | cons a args =>
    simp only [rangeLoop, ne_eq, not_true_eq_false, if_false, List.map_cons,
      String.intercalate]
    rw [rangeLoop_comma f args 1 (by decide), intercalate_go_eq]
    simp [List.map_map, Function.comp_def]

theorem joinArgNames_eq (args : List Arg) :
    joinArgNames args = String.intercalate "," (args.map fun a => a.Name) :=
  rangeLoop_intercalate (fun a => a.Name) args

theorem joinStoreArgs_eq (args : List Arg) :
    joinStoreArgs args = String.intercalate "," (args.map fun a => "&" ++ a.Name) := by
  have h := rangeLoop_intercalate (fun a => "&" ++ a.Name) args
  rw [← h, joinStoreArgs]
  simp only [String.append_assoc]

theorem joinArgs_eq (args : List Arg) (separator : Char) :
    joinArgs args separator
      = String.join (args.map fun a => a.Name ++ " " ++ a.Type_ ++ String.singleton separator) := by
  have h := foldl_buffer_join
    (fun a : Arg => a.Name ++ " " ++ a.Type_ ++ String.singleton separator) args ⟨""⟩
  have h2 : ∀ (l : List Arg) (acc : String),
      (l.foldl (fun (b : buffer) a =>
        (⟨b.buf ++ (a.Name ++ " " ++ a.Type_ ++ String.singleton separator)⟩ : buffer)) ⟨acc⟩).buf
      = l.foldl (fun acc a =>
        (((acc ++ a.Name) ++ " ") ++ a.Type_) ++ String.singleton separator) acc := by
    intro l
    induction l with
    | nil => intro acc; rfl
    | cons a l ih => intro acc; simp only [List.foldl_cons]; rw [ih]; simp [String.append_assoc]
  rw [joinArgs, ← h2, h]
  simp

/-! ## What `writeIface` writes -/

theorem writeIface_buf (buf : buffer) (iface : Interface) (signals : SignalMap) :
    (writeIface buf iface signals).1.buf =
      buf.buf ++ factoryText iface ++ proxyText iface ++
        String.join (iface.Methods.map (methodText iface)) ++
        String.join ((iface.Properties.filter fun p => p.Read).map (propertyText iface)) ++
        String.join (iface.Signals.map (signalText iface)) := by
  simp only [writeIface, foldl_writef, foldl_writef_if]
  rfl

theorem writeIface_signals (buf : buffer) (iface : Interface) (signals : SignalMap) :
    (writeIface buf iface signals).2.1 =
      if iface.Signals.length > 0 then signals.set iface.Name iface.Signals else signals := rfl

theorem writeIface_err (buf : buffer) (iface : Interface) (signals : SignalMap) :
    (writeIface buf iface signals).2.2 = none := rfl

/-! ## The templates, filled in -/

set_option maxRecDepth 100000 in
theorem methodTemplate_filled (a1 a2 a3 a4 a5 a6 a7 a8 a9 a10 : String) :
    Sprintf methodTemplate [.str a1, .str a2, .str a3, .str a4, .str a5, .str a6, .str a7,
        .str a8, .str a9, .str a10] =
      "// " ++ (a1 ++ (" calls " ++ (a2 ++ ("." ++ (a3 ++ (" method.\n" ++
      ("func(o *" ++ (a4 ++ (") " ++ (a5 ++ ("(" ++ (a6 ++ (") (" ++
        (a7 ++ ("err error) \x7b\n" ++
      ("\terr = o.object.Call(\"" ++ (a8 ++ ("\", 0, " ++
        (a9 ++ (").Store(" ++ (a10 ++ (")\n" ++
      ("\treturn\n" ++
      "\x7d\n"))))))))))))))))))))))) := rfl

set_option maxRecDepth 100000 in
theorem propertyTemplate_filled (a1 a2 a3 a4 a5 a6 a7 a8 a9 a10 : String) :
    Sprintf propertyTemplate [.str a1, .str a2, .str a3, .str a4, .str a5, .str a6, .str a7,
        .str a8, .str a9, .str a10] =
      "// " ++ (a1 ++ (" gets " ++ (a2 ++ ("." ++ (a3 ++ (" property.\n" ++
      ("func(o *" ++ (a4 ++ (") " ++ (a5 ++ ("() (" ++ (a6 ++ (" " ++
        (a7 ++ (", err error) \x7b\n" ++
      ("\to.object.Call(\"org.freedesktop.DBus.Properties.Get\", 0, \"" ++ (a8 ++ ("\", \"" ++
        (a9 ++ ("\").Store(&" ++ (a10 ++ (")\n" ++
      ("\treturn\n" ++
      "\x7d\n"))))))))))))))))))))))) := rfl

theorem caseTemplate_filled (a1 a2 a3 a4 : String) :
    Sprintf caseTemplate [.str a1, .str a2, .str a3, .str a4] =
      "\tcase \"" ++ (a1 ++ ("." ++ (a2 ++ ("\":\n" ++
      ("\t\treturn &" ++ (a3 ++ ("\x7b\n" ++
      ("\t\t\tsender: signal.Sender,\n" ++
      ("\t\t\tpath:   signal.Path,\n" ++
      ("\t\t\tbody:   " ++ (a4 ++ "Body\x7b\n"))))))))))) := rfl

theorem payloadTemplate_filled (a1 a3 : String) (i : Nat) :
    Sprintf payloadTemplate [.str a1, .int i, .str a3] =
      "\t\t\t\t" ++ (a1 ++ (": signal.Body[" ++ (toString i ++ ("].(" ++ (a3 ++ "),\n"))))) := rfl

theorem methodText_eq (iface : Interface) (m : Method) :
    methodText iface m =
      "// " ++ iface.Type_ ++ " calls " ++ iface.Name ++ "." ++ m.Name ++ " method.\n" ++
      "func(o *" ++ iface.Type_ ++ ") " ++ m.Type_ ++ "(" ++ joinArgs m.In ',' ++ ") (" ++
        joinArgs m.Out ',' ++ "err error) \x7b\n" ++
      "\terr = o.object.Call(\"" ++ iface.Name ++ "." ++ m.Type_ ++ "\", 0, " ++
        joinArgNames m.In ++ ").Store(" ++ joinStoreArgs m.Out ++ ")\n" ++
      "\treturn\n" ++
      "\x7d\n" := by
  rw [methodText, methodTemplate_filled]
  simp only [String.append_assoc]

theorem propertyText_eq (iface : Interface) (p : Property) :
    propertyText iface p =
      "// " ++ p.Type_ ++ " gets " ++ iface.Name ++ "." ++ p.Name ++ " property.\n" ++
      "func(o *" ++ iface.Type_ ++ ") " ++ p.Type_ ++ "() (" ++ p.Arg.Name ++ " " ++
        p.Arg.Type_ ++ ", err error) \x7b\n" ++
      "\to.object.Call(\"org.freedesktop.DBus.Properties.Get\", 0, \"" ++ iface.Name ++
        "\", \"" ++ p.Name ++ "\").Store(&" ++ p.Arg.Name ++ ")\n" ++
      "\treturn\n" ++
      "\x7d\n" := by
  rw [propertyText, propertyTemplate_filled]
  simp only [String.append_assoc]

theorem caseText_eq (iface : String) (sig : Signal) :
    caseText iface sig =
      "\tcase \"" ++ iface ++ "." ++ sig.Name ++ "\":\n" ++
      "\t\treturn &" ++ sig.Type_ ++ "\x7b\n" ++
      "\t\t\tsender: signal.Sender,\n" ++
      "\t\t\tpath:   signal.Path,\n" ++
      "\t\t\tbody:   " ++ sig.Type_ ++ "Body\x7b\n" := by
  rw [caseText, caseTemplate_filled]
  simp only [String.append_assoc]

theorem payloadText_eq (i : Nat) (arg : Arg) :
    payloadText i arg =
      "\t\t\t\t" ++ arg.Name ++ ": signal.Body[" ++ toString i ++ "].(" ++ arg.Type_ ++ "),\n" := by
  rw [payloadText, payloadTemplate_filled]
  simp only [String.append_assoc]

/-! ## Method bindings and property accessors -/

/-- C1: for every interface and every method of it, the call statement that
`writeIface` emits is `err = o.object.Call("<Interface.Name>.<Method
identifier>", 0, in_0,...,in_{N-1}).Store(&out_0,...,&out_{M-1})`: the text
of the interface is the factory, the proxy type, then for each method in order
a comment line, the signature line, this call statement and the closing lines,
then the accessors and the event types. The forwarded arguments are the names
of the declared inputs, comma separated, in order and as many; the stored
references are `&name` of the declared outputs, in order and as many; no
inputs and no outputs give empty lists. -/
theorem writeIface_call_statement (buf : buffer) (iface : Interface) (signals : SignalMap) :
    (writeIface buf iface signals).1.buf =
        buf.buf ++ factoryText iface ++ proxyText iface ++
          String.join (iface.Methods.map fun m =>
            "// " ++ iface.Type_ ++ " calls " ++ iface.Name ++ "." ++ m.Name ++ " method.\n" ++
            "func(o *" ++ iface.Type_ ++ ") " ++ m.Type_ ++ "(" ++ joinArgs m.In ',' ++ ") (" ++
              joinArgs m.Out ',' ++ "err error) \x7b\n" ++
            "\terr = o.object.Call(\"" ++ iface.Name ++ "." ++ m.Type_ ++ "\", 0, " ++
              String.intercalate "," (m.In.map fun a => a.Name) ++ ").Store(" ++
              String.intercalate "," (m.Out.map fun a => "&" ++ a.Name) ++ ")\n" ++
            "\treturn\n" ++
            "\x7d\n") ++
          String.join ((iface.Properties.filter fun p => p.Read).map (propertyText iface)) ++
          String.join (iface.Signals.map (signalText iface))
      ∧ (∀ args : List Arg,
          joinArgNames args = String.intercalate "," (args.map fun a => a.Name)
          ∧ (args.map fun a => a.Name).length = args.length
          ∧ ∀ i : Nat, (args.map fun a => a.Name)[i]? = args[i]?.map fun a => a.Name)
      ∧ (∀ args : List Arg,
          joinStoreArgs args = String.intercalate "," (args.map fun a => "&" ++ a.Name)
          ∧ (args.map fun a => "&" ++ a.Name).length = args.length
          ∧ ∀ j : Nat, (args.map fun a => "&" ++ a.Name)[j]? = args[j]?.map fun a => "&" ++ a.Name)
      ∧ joinArgNames [] = "" ∧ joinStoreArgs [] = "" := by
  refine ⟨?_, ?_, ?_, rfl, rfl⟩
  · have h : methodText iface = fun m => _ :=
      funext fun m => (methodText_eq iface m).trans
        (by rw [joinArgNames_eq, joinStoreArgs_eq])
    rw [writeIface_buf, h]
  · intro args
    exact ⟨joinArgNames_eq args, by simp, fun i => by simp⟩
  · intro args
    exact ⟨joinStoreArgs_eq args, by simp, fun j => by simp⟩

/-- C2: for every method, the signature `writeIface` emits has as parameter
list the declared inputs and as result list the declared outputs followed by
`err error`: the parameter text is `joinArgs(In, ',')`, the result text is
`joinArgs(Out, ',')` followed by `err error`, and `joinArgs(args, sep)` is the
concatenation over the arguments, in order, of name, a blank, type and
separator. -/
theorem writeIface_signature (buf : buffer) (iface : Interface) (signals : SignalMap) :
    (writeIface buf iface signals).1.buf =
        buf.buf ++ factoryText iface ++ proxyText iface ++
          String.join (iface.Methods.map fun m =>
            "// " ++ iface.Type_ ++ " calls " ++ iface.Name ++ "." ++ m.Name ++ " method.\n" ++
            "func(o *" ++ iface.Type_ ++ ") " ++ m.Type_ ++ "(" ++
              String.join (m.In.map fun a => a.Name ++ " " ++ a.Type_ ++ ",") ++ ") (" ++
              String.join (m.Out.map fun a => a.Name ++ " " ++ a.Type_ ++ ",") ++
              "err error) \x7b\n" ++
            "\terr = o.object.Call(\"" ++ iface.Name ++ "." ++ m.Type_ ++ "\", 0, " ++
              joinArgNames m.In ++ ").Store(" ++ joinStoreArgs m.Out ++ ")\n" ++
            "\treturn\n" ++
            "\x7d\n") ++
          String.join ((iface.Properties.filter fun p => p.Read).map (propertyText iface)) ++
          String.join (iface.Signals.map (signalText iface))
      ∧ (∀ (args : List Arg) (sep : Char),
          joinArgs args sep
            = String.join (args.map fun a => a.Name ++ " " ++ a.Type_ ++ String.singleton sep)) := by
  refine ⟨?_, joinArgs_eq⟩
  have hc : String.singleton ',' = "," := rfl
  have h : methodText iface = fun m => _ :=
    funext fun m => (methodText_eq iface m).trans
      (by rw [joinArgs_eq, joinArgs_eq, hc])
  rw [writeIface_buf, h]

/-- C3: for every interface, `writeIface` emits one accessor for each property
whose `Read` flag is set and nothing for the others: the accessors, in
declaration order, are the whole text between the method bindings and the
event types, and there are as many as readable properties. Each accessor is
named by the identifier of the property, has no parameter, calls
`org.freedesktop.DBus.Properties.Get` with the name of the interface and the
name of the property and stores into the value binding of the property. -/
theorem writeIface_property_accessors (buf : buffer) (iface : Interface)
    (signals : SignalMap) :
    (writeIface buf iface signals).1.buf =
        buf.buf ++ factoryText iface ++ proxyText iface ++
          String.join (iface.Methods.map (methodText iface)) ++
          String.join ((iface.Properties.filter fun p => p.Read).map fun p =>
            "// " ++ p.Type_ ++ " gets " ++ iface.Name ++ "." ++ p.Name ++ " property.\n" ++
            "func(o *" ++ iface.Type_ ++ ") " ++ p.Type_ ++ "() (" ++ p.Arg.Name ++ " " ++
              p.Arg.Type_ ++ ", err error) \x7b\n" ++
            "\to.object.Call(\"org.freedesktop.DBus.Properties.Get\", 0, \"" ++ iface.Name ++
              "\", \"" ++ p.Name ++ "\").Store(&" ++ p.Arg.Name ++ ")\n" ++
            "\treturn\n" ++
            "\x7d\n") ++
          String.join (iface.Signals.map (signalText iface))
      ∧ ((iface.Properties.filter fun p => p.Read).map (propertyText iface)).length
          = iface.Properties.countP fun p => p.Read := by
  refine ⟨?_, ?_⟩
  · have h : propertyText iface = fun p => _ := funext fun p => propertyText_eq iface p
    rw [writeIface_buf, h]
  · rw [List.length_map, List.countP_eq_length_filter]

set_option maxRecDepth 1000000 in
/-- C4, the code at an interface with one readable property: the accessor
`writeIface` emits calls `Store` without assigning its result, so `err =`
occurs nowhere in the text of the interface and the returned `err` stays nil,
while the binding of a method does assign `err = o.object.Call(` once. -/
theorem property_accessor_drops_store_result :
    (writeIface ⟨""⟩ versionIface []).1.buf = String.join [
        "// Demo returns org.example.Demo DBus interface implementation.\n",
        "func NewDemo(conn *dbus.Conn, dest string, path dbus.ObjectPath) *Demo \x7b\n",
        "\treturn &Demo\x7bconn.Object(dest, path)\x7d\n",
        "\x7d\n",
        "// Demo implements org.example.Demo DBus interface.\n",
        "type Demo struct \x7b\n",
        "\tobject dbus.BusObject\n",
        "\x7d\n",
        "// Version gets org.example.Demo.Version property.\n",
        "func(o *Demo) Version() (v string, err error) \x7b\n",
        "\to.object.Call(\"org.freedesktop.DBus.Properties.Get\", 0, \"org.example.Demo\", \"Version\").Store(&v)\n",
        "\treturn\n",
        "\x7d\n"]
      ∧ occurrences "err =" (writeIface ⟨""⟩ versionIface []).1.buf = 0
      ∧ occurrences "err = o.object.Call(" (writeIface ⟨""⟩ demoIface []).1.buf = 1 := by
  refine ⟨by decide, by decide, by decide⟩

/-! ## What `writeSignalFuncs` writes -/

theorem clause_step (iface : String) (sig : Signal) (buf : buffer) :
    ((rangeLoop (fun i (arg : Arg) (b : buffer) =>
        b.writef payloadTemplate [.str arg.Name, .int i, .str arg.Type_]) 0 sig.Args
        (buf.writef caseTemplate
          [.str iface, .str sig.Name, .str sig.Type_, .str sig.Type_])).writeln
        ["\t\t\t\x7d,"]).writeln ["\t\t\x7d"]
      = ⟨buf.buf ++ clauseText iface sig⟩ := by
  have h : rangeLoop (fun i (arg : Arg) (b : buffer) =>
        b.writef payloadTemplate [.str arg.Name, .int i, .str arg.Type_]) 0 sig.Args
        (buf.writef caseTemplate
          [.str iface, .str sig.Name, .str sig.Type_, .str sig.Type_])
      = ⟨(buf.buf ++ caseText iface sig) ++ String.join (payloadEntries sig.Args)⟩ :=
    rangeLoop_append (fun j x => payloadText j x) sig.Args 0 _
  rw [h]
  have e : ∀ x y : buffer, x.buf = y.buf → x = y := fun x y hxy => by
    cases x; cases y; simp only [buffer.mk.injEq]; exact hxy
  apply e
  rw [writeln_buf, writeln_buf, clauseText]
  simp only [join_cons, join_nil, String.append_assoc, String.append_empty]
  rfl

theorem lookupClauses_texts (visited : List (String × List Signal)) :
    String.join ((lookupClauses visited).map fun c => clauseText c.1 c.2)
      = String.join (visited.map fun entry => String.join (entry.2.map (clauseText entry.1))) := by
  rw [lookupClauses, List.map_flatMap, join_flatMap]
  simp only [List.map_map, Function.comp_def]

theorem writeSignalFuncs_buf (rng : SignalMap → List (String × List Signal)) (buf : buffer)
    (signals : SignalMap) :
    (writeSignalFuncs rng buf signals).1.buf = buf.buf ++ signalFuncsText (rng signals) := by
  simp only [writeSignalFuncs, clause_step, foldl_buffer_join]
  rw [signalFuncsText, lookupClauses_texts]
  simp only [buffer.writef, String.append_assoc]
  rfl

theorem writeSignalFuncs_err (rng : SignalMap → List (String × List Signal)) (buf : buffer)
    (signals : SignalMap) :
    (writeSignalFuncs rng buf signals).2 = none := rfl

theorem clauseText_eq (iface : String) (sig : Signal) :
    clauseText iface sig =
      "\tcase \"" ++ iface ++ "." ++ sig.Name ++ "\":\n" ++
      "\t\treturn &" ++ sig.Type_ ++ "\x7b\n" ++
      "\t\t\tsender: signal.Sender,\n" ++
      "\t\t\tpath:   signal.Path,\n" ++
      "\t\t\tbody:   " ++ sig.Type_ ++ "Body\x7b\n" ++
      String.join (payloadEntries sig.Args) ++
      "\t\t\t\x7d,\n" ++
      "\t\t\x7d\n" := by
  rw [clauseText, caseText_eq]

theorem payloadEntries_getElem? (args : List Arg) (i : Nat) :
    (payloadEntries args)[i]? = args[i]?.map fun a =>
      "\t\t\t\t" ++ a.Name ++ ": signal.Body[" ++ toString i ++ "].(" ++ a.Type_ ++ "),\n" := by
  rw [payloadEntries, List.getElem?_map, List.getElem?_enum]
  cases args[i]? with
  | none => rfl
  | some a => simp [payloadText_eq]

/-- C5: for every signal of the registry, the case `writeSignalFuncs` emits
builds the event of the signal, with sender and path copied from the
notification, and fills the payload with one entry per argument: there are as
many entries as arguments and the entry at position `i` is
`<name>: signal.Body[i].(<type>)` for the `i`-th declared argument, `i`
counted from zero. The clauses written are those of the registry entries, each
entry visited once. -/
theorem writeSignalFuncs_case_payload (rng : SignalMap → List (String × List Signal))
    (hrng : ValidRange rng) (buf : buffer) (signals : SignalMap) :
    (writeSignalFuncs rng buf signals).1.buf =
        buf.buf ++ signalContractText ++ lookupHeadText ++
          String.join ((rng signals).map fun entry => String.join (entry.2.map fun sig =>
            "\tcase \"" ++ entry.1 ++ "." ++ sig.Name ++ "\":\n" ++
            "\t\treturn &" ++ sig.Type_ ++ "\x7b\n" ++
            "\t\t\tsender: signal.Sender,\n" ++
            "\t\t\tpath:   signal.Path,\n" ++
            "\t\t\tbody:   " ++ sig.Type_ ++ "Body\x7b\n" ++
            String.join (payloadEntries sig.Args) ++
            "\t\t\t\x7d,\n" ++
            "\t\t\x7d\n")) ++
          lookupTailText
      ∧ (rng signals).Perm signals
      ∧ ∀ args : List Arg,
          (payloadEntries args).length = args.length
          ∧ ∀ i : Nat, (payloadEntries args)[i]? = args[i]?.map fun a =>
              "\t\t\t\t" ++ a.Name ++ ": signal.Body[" ++ toString i ++ "].(" ++ a.Type_ ++
                "),\n" := by
  refine ⟨?_, hrng signals, fun args => ⟨by simp [payloadEntries], payloadEntries_getElem? args⟩⟩
  have h : ∀ iface : String, clauseText iface = fun sig => _ :=
    fun iface => funext fun sig => clauseText_eq iface sig
  rw [writeSignalFuncs_buf, signalFuncsText, lookupClauses_texts]
  simp only [h, String.append_assoc]

/-- Witness of C5: the identity order on the registry of `demoIface`. -/
theorem writeSignalFuncs_case_payload_witness :
    ValidRange id ∧
    (payloadEntries [{ Name := "value", Type_ := "string" }, { Name := "count", Type_ := "uint32" }])[1]?
      = some "\t\t\t\tcount: signal.Body[1].(uint32),\n" :=
  ⟨fun m => List.Perm.refl m,
   ((writeSignalFuncs_case_payload id (fun m => List.Perm.refl m) ⟨""⟩
      [("org.example.Demo", demoIface.Signals)]).2.2
      [{ Name := "value", Type_ := "string" }, { Name := "count", Type_ := "uint32" }]).2 1⟩

/-! ## The registry -/

theorem writeIface_eq (buf : buffer) (iface : Interface) (signals : SignalMap) :
    writeIface buf iface signals =
      (⟨buf.buf ++ ifaceText iface⟩,
       if iface.Signals.length > 0 then signals.set iface.Name iface.Signals else signals,
       none) := by
  have e : ∀ x y : buffer, x.buf = y.buf → x = y := fun x y hxy => by
    cases x; cases y; simp only [buffer.mk.injEq]; exact hxy
  have h1 : (writeIface buf iface signals).1 = ⟨buf.buf ++ ifaceText iface⟩ := by
    apply e
    rw [writeIface_buf, ifaceText]
    simp only [String.append_assoc]
  have h2 := writeIface_signals buf iface signals
  have h3 := writeIface_err buf iface signals
  rw [← h1, ← h2, ← h3]

theorem writeIfaces_eq (ifaces : List Interface) (buf : buffer) (signals : SignalMap) :
    writeIfaces ifaces buf signals =
      (⟨buf.buf ++ String.join (ifaces.map ifaceText)⟩,
       ifaces.foldl (fun m i => if i.Signals.length > 0 then m.set i.Name i.Signals else m)
         signals,
       none) := by
  induction ifaces generalizing buf signals with
  | nil => simp [writeIfaces, join_nil]
  | cons iface rest ih =>
    rw [writeIfaces, writeIface_eq]
    simp only [ih, List.map_cons, join_cons, List.foldl_cons, String.append_assoc]

theorem registryOf_eq (ifaces : List Interface) (buf : buffer) :
    (writeIfaces ifaces buf []).2.1 = registryOf ifaces := by
  rw [registryOf, writeIfaces_eq, writeIfaces_eq]

theorem set_of_absent (m : SignalMap) (k : String) (v : List Signal)
    (h : ∀ e ∈ m, e.1 ≠ k) : m.set k v = m ++ [(k, v)] := by
  have hany : m.any (fun e => e.1 == k) = false := by
    rw [List.any_eq_false]
    intro e he
    simpa using h e he
  simp [SignalMap.set, hany]

theorem set_ne_nil (m : SignalMap) (k : String) (v : List Signal) : m.set k v ≠ [] := by
  unfold SignalMap.set
  split
  · rename_i h
    intro hm
    rw [List.map_eq_nil_iff] at hm
    rw [hm] at h
    simp at h
  · simp

theorem registry_fold_eq_nil (ifaces : List Interface) (signals : SignalMap) :
    ifaces.foldl (fun m i => if i.Signals.length > 0 then m.set i.Name i.Signals else m)
        signals = []
      ↔ signals = [] ∧ ∀ i ∈ ifaces, i.Signals = [] := by
  induction ifaces generalizing signals with
  | nil => simp
  | cons i rest ih =>
    rw [List.foldl_cons, ih]
    by_cases hi : i.Signals.length > 0
    · have hne : i.Signals ≠ [] := fun h => by simp [h] at hi
      simp [hi, set_ne_nil, hne]
    · have hnil : i.Signals = [] := by
        cases hs : i.Signals with
        | nil => rfl
        | cons a l => simp [hs] at hi
      simp [hnil]

theorem registry_fold_distinct (ifaces : List Interface) (signals : SignalMap)
    (hd : (ifaces.map fun i => i.Name).Nodup)
    (hk : ∀ e ∈ signals, ∀ i ∈ ifaces, e.1 ≠ i.Name) :
    ifaces.foldl (fun m i => if i.Signals.length > 0 then m.set i.Name i.Signals else m)
        signals
      = signals ++ (ifaces.filter fun i => decide (i.Signals.length > 0)).map
          fun i => (i.Name, i.Signals) := by
  induction ifaces generalizing signals with
  | nil => simp
  | cons i rest ih =>
    rw [List.map_cons, List.nodup_cons] at hd
    have hrest : ∀ e ∈ signals, ∀ j ∈ rest, e.1 ≠ j.Name :=
      fun e he j hj => hk e he j (List.mem_cons_of_mem _ hj)
    rw [List.foldl_cons]
    by_cases hi : i.Signals.length > 0
    · rw [if_pos hi, set_of_absent signals i.Name i.Signals
        (fun e he => hk e he i (List.mem_cons_self _ _))]
      rw [ih _ hd.2]
      · simp [List.filter_cons, hi]
      · intro e he j hj
        rcases List.mem_append.1 he with he | he
        · exact hrest e he j hj
        · simp only [List.mem_singleton] at he
          subst he
          intro heq
          exact hd.1 (List.mem_map.2 ⟨j, hj, heq.symm⟩)
    · rw [if_neg hi, ih _ hd.2 hrest]
      simp [List.filter_cons, hi]

theorem registryOf_distinct (ifaces : List Interface)
    (hd : (ifaces.map fun i => i.Name).Nodup) :
    registryOf ifaces
      = (ifaces.filter fun i => decide (i.Signals.length > 0)).map
          fun i => (i.Name, i.Signals) := by
  rw [registryOf, writeIfaces_eq]
  simpa using registry_fold_distinct ifaces [] hd (by simp)

theorem find_of_distinct (l : List Interface) (hd : (l.map fun i => i.Name).Nodup)
    (iface : Interface) (hmem : iface ∈ l) :
    (l.map fun i => (i.Name, i.Signals)).find? (fun e => e.1 == iface.Name)
      = some (iface.Name, iface.Signals) := by
  induction l with
  | nil => simp at hmem
  | cons i rest ih =>
    rw [List.map_cons, List.nodup_cons] at hd
    rw [List.map_cons, List.find?_cons]
    by_cases hn : i.Name = iface.Name
    · have hi : iface = i := by
        rcases List.mem_cons.1 hmem with h | h
        · exact h
        · exact absurd (List.mem_map.2 ⟨iface, h, hn.symm⟩) hd.1
      subst hi
      simp
    · have hr : iface ∈ rest := by
        rcases List.mem_cons.1 hmem with h | h
        · exact absurd (by rw [h]) hn
        · exact h
      have hb : (i.Name == iface.Name) = false := by simpa using hn
      simp only [hb]
      exact ih hd.2 hr

theorem lookupClauses_registry (ifaces : List Interface) :
    lookupClauses ((ifaces.filter fun i => decide (i.Signals.length > 0)).map
        fun i => (i.Name, i.Signals))
      = ifaces.flatMap fun i => i.Signals.map fun s => (i.Name, s) := by
  induction ifaces with
  | nil => rfl
  | cons i rest ih =>
    rw [lookupClauses] at ih
    by_cases hi : i.Signals.length > 0
    · simp [lookupClauses, List.filter_cons, hi, ih, List.flatMap_cons]
    · have hnil : i.Signals = [] := by
        cases hs : i.Signals with
        | nil => rfl
        | cons a l => simp [hs] at hi
      simp [lookupClauses, List.filter_cons, hnil, ih, List.flatMap_cons]

theorem label_ne (a b s : String) (h : a ≠ b) : a ++ "." ++ s ≠ b ++ "." ++ s := by
  intro heq
  apply h
  have hd := congrArg String.data heq
  simp only [String.data_append] at hd
  exact String.ext (List.append_cancel_right (List.append_cancel_right hd))

theorem mem_lookupClauses (visited : List (String × List Signal)) (c : String × Signal) :
    c ∈ lookupClauses visited ↔ ∃ sigs, (c.1, sigs) ∈ visited ∧ c.2 ∈ sigs := by
  simp only [lookupClauses, List.mem_flatMap, List.mem_map]
  constructor
  · rintro ⟨e, he, s, hs, rfl⟩
    exact ⟨e.2, he, hs⟩
  · rintro ⟨sigs, he, hs⟩
    exact ⟨(c.1, sigs), he, c.2, hs, rfl⟩

theorem signalFuncsText_eq (visited : List (String × List Signal)) :
    signalFuncsText visited =
      signalContractText ++ lookupHeadText ++
        String.join ((lookupClauses visited).map fun c =>
          "\tcase \"" ++ c.1 ++ "." ++ c.2.Name ++ "\":\n" ++
          "\t\treturn &" ++ c.2.Type_ ++ "\x7b\n" ++
          "\t\t\tsender: signal.Sender,\n" ++
          "\t\t\tpath:   signal.Path,\n" ++
          "\t\t\tbody:   " ++ c.2.Type_ ++ "Body\x7b\n" ++
          String.join (payloadEntries c.2.Args) ++
          "\t\t\t\x7d,\n" ++
          "\t\t\x7d\n") ++
        lookupTailText := by
  have h : (fun c : String × Signal => clauseText c.1 c.2) = fun c => _ :=
    funext fun c => clauseText_eq c.1 c.2
  rw [signalFuncsText, h]

/-- C6: for every model whose interfaces have pairwise distinct names, once
all interfaces are processed the registry holds, under the name of each
interface that declares signals, the signals of that interface, and the lookup
written from it has one case clause, labelled `<Interface.Name>.<Signal.Name>`,
for each signal of each interface: the clauses are a rearrangement of the
(interface name, signal) pairs of the model and there are as many as signals.
Two interfaces of different names that declare a signal of the same bare name
each have their clause, and the two labels differ. -/
theorem registry_holds_every_signal (rng : SignalMap → List (String × List Signal))
    (hrng : ValidRange rng) (ifaces : List Interface)
    (hd : (ifaces.map fun i => i.Name).Nodup) (b buf : buffer) :
    (∀ iface ∈ ifaces, iface.Signals ≠ [] →
        ((writeIfaces ifaces b []).2.1).get iface.Name = some iface.Signals)
      ∧ (writeSignalFuncs rng buf (writeIfaces ifaces b []).2.1).1.buf =
          buf.buf ++ signalContractText ++ lookupHeadText ++
            String.join ((lookupClauses (rng (writeIfaces ifaces b []).2.1)).map fun c =>
              "\tcase \"" ++ c.1 ++ "." ++ c.2.Name ++ "\":\n" ++
              "\t\treturn &" ++ c.2.Type_ ++ "\x7b\n" ++
              "\t\t\tsender: signal.Sender,\n" ++
              "\t\t\tpath:   signal.Path,\n" ++
              "\t\t\tbody:   " ++ c.2.Type_ ++ "Body\x7b\n" ++
              String.join (payloadEntries c.2.Args) ++
              "\t\t\t\x7d,\n" ++
              "\t\t\x7d\n") ++
            lookupTailText
      ∧ (lookupClauses (rng (writeIfaces ifaces b []).2.1)).Perm
          (ifaces.flatMap fun i => i.Signals.map fun s => (i.Name, s))
      ∧ (lookupClauses (rng (writeIfaces ifaces b []).2.1)).length
          = (ifaces.map fun i => i.Signals.length).sum
      ∧ ∀ A ∈ ifaces, ∀ B ∈ ifaces, A.Name ≠ B.Name →
          ∀ sA ∈ A.Signals, ∀ sB ∈ B.Signals, sA.Name = sB.Name →
            (A.Name, sA) ∈ lookupClauses (rng (writeIfaces ifaces b []).2.1)
            ∧ (B.Name, sB) ∈ lookupClauses (rng (writeIfaces ifaces b []).2.1)
            ∧ A.Name ++ "." ++ sA.Name ≠ B.Name ++ "." ++ sB.Name := by
  have hperm : (lookupClauses (rng (registryOf ifaces))).Perm
      (ifaces.flatMap fun i => i.Signals.map fun s => (i.Name, s)) := by
    have h1 : (lookupClauses (rng (registryOf ifaces))).Perm (lookupClauses (registryOf ifaces)) :=
      List.Perm.flatMap_right _ (hrng (registryOf ifaces))
    have h2 : lookupClauses (registryOf ifaces)
        = ifaces.flatMap fun i => i.Signals.map fun s => (i.Name, s) := by
      rw [registryOf_distinct ifaces hd, lookupClauses_registry]
    rw [h2] at h1
    exact h1
  have hmem : ∀ A ∈ ifaces, ∀ sA ∈ A.Signals,
      (A.Name, sA) ∈ lookupClauses (rng (registryOf ifaces)) := by
    intro A hA sA hsA
    rw [hperm.mem_iff, List.mem_flatMap]
    exact ⟨A, hA, List.mem_map.2 ⟨sA, hsA, rfl⟩⟩
  rw [registryOf_eq]
  refine ⟨?_, ?_, hperm, ?_, ?_⟩
  · intro iface hmemI hne
    rw [registryOf_distinct ifaces hd, SignalMap.get]
    have hlen : iface.Signals.length > 0 := List.length_pos.2 hne
    have hf : iface ∈ ifaces.filter fun i => decide (i.Signals.length > 0) :=
      List.mem_filter.2 ⟨hmemI, by simpa using hlen⟩
    have hsub : ((ifaces.filter fun i => decide (i.Signals.length > 0)).map
        fun i => i.Name).Nodup :=
      hd.sublist ((List.filter_sublist ifaces).map _)
    rw [find_of_distinct _ hsub iface hf]
    rfl
  · rw [writeSignalFuncs_buf, signalFuncsText_eq]
    simp only [String.append_assoc]
  · rw [hperm.length_eq, List.length_flatMap]
    simp [Function.comp_def]
  · intro A hA B hB hAB sA hsA sB hsB hname
    refine ⟨hmem A hA sA hsA, hmem B hB sB hsB, ?_⟩
    rw [hname]
    exact label_ne A.Name B.Name sB.Name hAB

/-- Witness of C6: the two interfaces of `twoIfaces`, the registry visited in
reverse. -/
theorem registry_holds_every_signal_witness :
    ValidRange List.reverse ∧ (twoIfaces.map fun i => i.Name).Nodup ∧
    (lookupClauses (List.reverse (writeIfaces twoIfaces ⟨""⟩ []).2.1)).length
      = (twoIfaces.map fun i => i.Signals.length).sum :=
  ⟨fun m => List.reverse_perm m, by decide,
   (registry_holds_every_signal List.reverse (fun m => List.reverse_perm m) twoIfaces
      (by decide) ⟨""⟩ ⟨""⟩).2.2.2.1⟩

set_option maxRecDepth 1000000 in
/-- C7: the lookup `writeSignalFuncs` emits is the event contract, the head of
the switch, the case clauses and then the clause `default: return nil` that
closes the switch. Neither the text before the clauses nor the default clause
holds a type cast: every `signal.Body[i].(T)` is a payload entry of a clause
that opens with `case "<key>.<Signal.Name>":`, where the key is a key of the
registry and the signal one of its signals. -/
theorem writeSignalFuncs_default_clause (rng : SignalMap → List (String × List Signal))
    (hrng : ValidRange rng) (buf : buffer) (signals : SignalMap) :
    (writeSignalFuncs rng buf signals).1.buf =
        buf.buf ++ signalContractText ++ lookupHeadText ++
          String.join ((lookupClauses (rng signals)).map fun c =>
            "\tcase \"" ++ c.1 ++ "." ++ c.2.Name ++ "\":\n" ++
            "\t\treturn &" ++ c.2.Type_ ++ "\x7b\n" ++
            "\t\t\tsender: signal.Sender,\n" ++
            "\t\t\tpath:   signal.Path,\n" ++
            "\t\t\tbody:   " ++ c.2.Type_ ++ "Body\x7b\n" ++
            String.join (payloadEntries c.2.Args) ++
            "\t\t\t\x7d,\n" ++
            "\t\t\x7d\n") ++
          "\tdefault:\n\t\treturn nil\n\t\x7d\n\x7d\n"
      ∧ occurrences ".(" (signalContractText ++ lookupHeadText) = 0
      ∧ occurrences ".(" "\tdefault:\n\t\treturn nil\n\t\x7d\n\x7d\n" = 0
      ∧ ∀ c ∈ lookupClauses (rng signals), ∃ sigs, (c.1, sigs) ∈ signals ∧ c.2 ∈ sigs := by
  refine ⟨?_, by decide, by decide, ?_⟩
  · have ht : lookupTailText = "\tdefault:\n\t\treturn nil\n\t\x7d\n\x7d\n" := by decide
    rw [writeSignalFuncs_buf, signalFuncsText_eq, ht]
    simp only [String.append_assoc]
  · intro c hc
    obtain ⟨sigs, he, hs⟩ := (mem_lookupClauses _ c).1 hc
    exact ⟨sigs, (hrng signals).mem_iff.1 he, hs⟩

/-- Witness of C7: the registry of `demoIface`, visited in order. -/
theorem writeSignalFuncs_default_clause_witness :
    ValidRange id ∧
    occurrences ".(" "\tdefault:\n\t\treturn nil\n\t\x7d\n\x7d\n" = 0 :=
  ⟨fun m => List.Perm.refl m,
   (writeSignalFuncs_default_clause id (fun m => List.Perm.refl m) ⟨""⟩
      [("org.example.Demo", demoIface.Signals)]).2.2.1⟩

/-! ## `Print` -/

theorem registryOf_fold (ifaces : List Interface) :
    registryOf ifaces
      = ifaces.foldl (fun (m : SignalMap) i =>
          if i.Signals.length > 0 then m.set i.Name i.Signals else m) ([] : SignalMap) := by
  rw [registryOf, writeIfaces_eq]

theorem assemble_eq (rng : SignalMap → List (String × List Signal)) (pkgName : String)
    (ifaces : List Interface) :
    assemble rng pkgName ifaces = .ok ⟨assembledText rng pkgName ifaces⟩ := by
  have hh : writeHeader ⟨""⟩ pkgName ifaces = (⟨headerText pkgName ifaces⟩, none) := rfl
  have e : ∀ x y : buffer, x.buf = y.buf → x = y := fun x y hxy => by
    cases x; cases y; simp only [buffer.mk.injEq]; exact hxy
  have hw : ∀ (buf : buffer) (signals : SignalMap),
      writeSignalFuncs rng buf signals = (⟨buf.buf ++ signalFuncsText (rng signals)⟩, none) := by
    intro buf signals
    have h1 : (writeSignalFuncs rng buf signals).1 = ⟨buf.buf ++ signalFuncsText (rng signals)⟩ :=
      e _ _ (writeSignalFuncs_buf rng buf signals)
    rw [← h1, ← writeSignalFuncs_err rng buf signals]
  have hr := registryOf_fold ifaces
  simp only [assemble, hh, writeIfaces_eq, hw, ← hr, assembledText]
  split
  · rfl
  · rw [String.append_empty]

theorem registryOf_length_pos (ifaces : List Interface) :
    (registryOf ifaces).length > 0 ↔ ∃ i ∈ ifaces, i.Signals ≠ [] := by
  have h := registry_fold_eq_nil ifaces []
  rw [← registryOf_fold ifaces] at h
  rw [gt_iff_lt, List.length_pos, ne_eq, h]
  simp

set_option maxRecDepth 1000000 in
/-- The shape of the text `Print` assembles before normalization: the header,
the texts of the interfaces and then, if at least one interface declares at
least one signal, the block of `writeSignalFuncs` once, and nothing more if no
interface declares a signal. The fixed text of the block holds
`type Signal interface` and `func LookupSignal` once each. -/
theorem assemble_dispatch_once (rng : SignalMap → List (String × List Signal))
    (pkgName : String) (ifaces : List Interface) :
    assemble rng pkgName ifaces = .ok ⟨
        headerText pkgName ifaces ++ String.join (ifaces.map ifaceText) ++
          (if ifaces.any (fun i => decide (i.Signals ≠ [])) then
            signalContractText ++ lookupHeadText ++
              String.join ((lookupClauses (rng (registryOf ifaces))).map fun c =>
                clauseText c.1 c.2) ++ lookupTailText
           else "")⟩
      ∧ occurrences "type Signal interface" signalContractText = 1
      ∧ occurrences "func LookupSignal" lookupHeadText = 1
      ∧ occurrences "type Signal interface" (lookupHeadText ++ lookupTailText) = 0
      ∧ occurrences "func LookupSignal" (signalContractText ++ lookupTailText) = 0
      ∧ ((registryOf ifaces).length > 0 ↔ ∃ i ∈ ifaces, i.Signals ≠ []) := by
  refine ⟨?_, by decide, by decide, by decide, by decide, registryOf_length_pos ifaces⟩
  rw [assemble_eq, assembledText]
  have hiff := registryOf_length_pos ifaces
  by_cases h : (registryOf ifaces).length > 0
  · have hany : ifaces.any (fun i => decide (i.Signals ≠ [])) = true := by
      rw [List.any_eq_true]
      obtain ⟨i, hi, hne⟩ := hiff.1 h
      exact ⟨i, hi, by simpa using hne⟩
    rw [if_pos h, hany, signalFuncsText]
    rfl
  · have hany : ifaces.any (fun i => decide (i.Signals ≠ [])) = false := by
      rw [List.any_eq_false]
      intro i hi
      have : ¬ i.Signals ≠ [] := fun hne => h (hiff.2 ⟨i, hi, hne⟩)
      simpa using this
    rw [if_neg h, hany]
    rfl

theorem append_cancel_left (a b c : String) (h : a ++ b = a ++ c) : b = c := by
  have hd := congrArg String.data h
  simp only [String.data_append] at hd
  exact String.ext (List.append_cancel_left hd)

theorem print_acceptAll (Write : String → Option Error)
    (rng : SignalMap → List (String × List Signal)) (pkgName : String)
    (ifaces : List Interface) :
    Print acceptAll Write rng pkgName ifaces
      = ([assembledText rng pkgName ifaces], Write (assembledText rng pkgName ifaces)) := by
  simp [Print, assemble_eq, buffer.bytes, acceptAll]

theorem assembledText_twoIfaces_ne :
    assembledText id "demo" twoIfaces ≠ assembledText List.reverse "demo" twoIfaces := by
  have hlen : (registryOf twoIfaces).length > 0 := by decide
  have key : signalFuncsText (id (registryOf twoIfaces))
      ≠ signalFuncsText (List.reverse (registryOf twoIfaces)) := by
    rw [signalFuncsText, signalFuncsText]
    intro h
    have h2 := append_cancel_left _ _ _ (by simpa only [String.append_assoc] using h)
    revert h2
    decide
  intro h
  rw [assembledText, assembledText, if_pos hlen] at h
  exact key (append_cancel_left _ _ _ h)

/-- C9, the code at a model of two interfaces that each declare a signal: the
identity and the reversal are both orders in which `range` may visit the
registry, and `Print` writes a different text for each, with the same model,
the same output name and a normalizer that keeps the text as it is. -/
theorem print_depends_on_range_order :
    ValidRange id ∧ ValidRange List.reverse
      ∧ assemble id "demo" twoIfaces ≠ assemble List.reverse "demo" twoIfaces
      ∧ Print acceptAll writeOk id "demo" twoIfaces
          ≠ Print acceptAll writeOk List.reverse "demo" twoIfaces := by
  refine ⟨fun m => List.Perm.refl m, fun m => List.reverse_perm m, ?_, ?_⟩
  · rw [assemble_eq, assemble_eq]
    intro h
    injection h with h
    injection h with h
    exact assembledText_twoIfaces_ne h
  · rw [print_acceptAll, print_acceptAll]
    intro h
    injection h with h _
    injection h with h _
    exact assembledText_twoIfaces_ne h

/-- C10: for every model and output name, if the normalizer rejects the
assembled text, `Print` returns that error and hands nothing to the writer;
if it accepts, `Print` makes one write, of the result of the normalizer, and
returns what the writer returns. The text given to the normalizer is the
header, the texts of the interfaces and, when the registry is not empty, the
text of the lookup. -/
theorem print_no_partial_output (Source : String → Except Error String)
    (Write : String → Option Error) (rng : SignalMap → List (String × List Signal))
    (pkgName : String) (ifaces : List Interface) :
    (∀ err, Source (assembledText rng pkgName ifaces) = .error err →
        Print Source Write rng pkgName ifaces = ([], some err))
      ∧ (∀ b, Source (assembledText rng pkgName ifaces) = .ok b →
        Print Source Write rng pkgName ifaces = ([b], Write b))
      ∧ assembledText rng pkgName ifaces =
          headerText pkgName ifaces ++ String.join (ifaces.map ifaceText) ++
            (if (registryOf ifaces).length > 0 then
              signalFuncsText (rng (registryOf ifaces)) else "")
      ∧ (∀ buf, (writeIfaces ifaces buf []).2.1 = registryOf ifaces) := by
  refine ⟨?_, ?_, rfl, registryOf_eq ifaces⟩
  · intro err h
    simp [Print, assemble_eq, buffer.bytes, h]
  · intro b h
    simp [Print, assemble_eq, buffer.bytes, h]

/-- Witness of C10: `demoIface` with a normalizer that rejects and with one
that accepts. -/
theorem print_no_partial_output_witness :
    Print rejectAll writeOk id "demo" [demoIface] = ([], some "expected declaration")
      ∧ Print acceptAll writeOk id "demo" [demoIface]
          = ([assembledText id "demo" [demoIface]], none) :=
  ⟨(print_no_partial_output rejectAll writeOk id "demo" [demoIface]).1
      "expected declaration" rfl,
   (print_no_partial_output acceptAll writeOk id "demo" [demoIface]).2.1
      (assembledText id "demo" [demoIface]) rfl⟩

/-! ## The text emitter -/

/-- C17: for every buffer and every sequence of fragments, the empty one
included, after `writeln` the buffer holds what it held before, then the
fragments in order with nothing between them, then one newline. The previous
contents stay as a prefix and the buffer does not get shorter. -/
theorem writeln_contents (b : buffer) (s : List String) :
    (b.writeln s).buf = b.buf ++ s.foldr (fun si rest => si ++ rest) "" ++ "\n"
      ∧ (b.writeln s).buf = b.buf ++ String.join s ++ "\n"
      ∧ (b.writeln []).buf = b.buf ++ "\n"
      ∧ b.buf.data <+: (b.writeln s).buf.data
      ∧ b.buf.length + (s.map String.length).sum + 1 = (b.writeln s).buf.length := by
  have hj : ∀ l : List String, String.join l = l.foldr (fun si rest => si ++ rest) "" := by
    intro l
    induction l with
    | nil => rfl
    | cons a l ih => rw [join_cons, ih, List.foldr_cons]
  have hl : ∀ l : List String, (String.join l).length = (l.map String.length).sum := by
    intro l
    induction l with
    | nil => rfl
    | cons a l ih => rw [join_cons, String.length_append, ih, List.map_cons, List.sum_cons]
  refine ⟨?_, writeln_buf b s, ?_, ?_, ?_⟩
  · rw [writeln_buf, hj]
  · rw [writeln_buf, join_nil, String.append_empty]
  · rw [writeln_buf, String.append_assoc, String.data_append]
    exact List.prefix_append _ _
  · rw [writeln_buf, String.length_append, String.length_append, hl]
    rfl

/-! ## Factory, proxy type and event types -/

set_option maxRecDepth 100000 in
theorem factoryTemplate_filled (a1 a2 a3 a4 a5 : String) :
    Sprintf factoryTemplate [.str a1, .str a2, .str a3, .str a4, .str a5] =
      "// " ++ (a1 ++ (" returns " ++ (a2 ++ (" DBus interface implementation.\n" ++
      ("func New" ++ (a3 ++ ("(conn *dbus.Conn, dest string, path dbus.ObjectPath) *" ++
        (a4 ++ (" \x7b\n" ++
      ("\treturn &" ++ (a5 ++ ("\x7bconn.Object(dest, path)\x7d\n" ++
      "\x7d\n")))))))))))) := rfl

set_option maxRecDepth 100000 in
theorem proxyTemplate_filled (a1 a2 a3 : String) :
    Sprintf proxyTemplate [.str a1, .str a2, .str a3] =
      "// " ++ (a1 ++ (" implements " ++ (a2 ++ (" DBus interface.\n" ++
      ("type " ++ (a3 ++ (" struct \x7b\n" ++
      ("\tobject dbus.BusObject\n" ++
      "\x7d\n")))))))) := rfl

theorem factoryText_eq (iface : Interface) :
    factoryText iface =
      "// " ++ iface.Type_ ++ " returns " ++ iface.Name ++ " DBus interface implementation.\n" ++
      "func New" ++ iface.Type_ ++ "(conn *dbus.Conn, dest string, path dbus.ObjectPath) *" ++
        iface.Type_ ++ " \x7b\n" ++
      "\treturn &" ++ iface.Type_ ++ "\x7bconn.Object(dest, path)\x7d\n" ++
      "\x7d\n" := by
  rw [factoryText, factoryTemplate_filled]
  simp only [String.append_assoc]

theorem proxyText_eq (iface : Interface) :
    proxyText iface =
      "// " ++ iface.Type_ ++ " implements " ++ iface.Name ++ " DBus interface.\n" ++
      "type " ++ iface.Type_ ++ " struct \x7b\n" ++
      "\tobject dbus.BusObject\n" ++
      "\x7d\n" := by
  rw [proxyText, proxyTemplate_filled]
  simp only [String.append_assoc]

/-- C14: for every interface, `writeIface` first emits a factory named
`New<Interface identifier>` whose parameters are a connection `conn`, a
destination `dest` and an object path `path`, in that order, and whose body
returns a new proxy `&<identifier>{conn.Object(dest, path)}`; then the proxy
type, a struct around the remote object. -/
theorem writeIface_factory (buf : buffer) (iface : Interface) (signals : SignalMap) :
    (writeIface buf iface signals).1.buf =
      buf.buf ++
        ("// " ++ iface.Type_ ++ " returns " ++ iface.Name ++
            " DBus interface implementation.\n" ++
          "func New" ++ iface.Type_ ++
            "(conn *dbus.Conn, dest string, path dbus.ObjectPath) *" ++ iface.Type_ ++ " \x7b\n" ++
          "\treturn &" ++ iface.Type_ ++ "\x7bconn.Object(dest, path)\x7d\n" ++
          "\x7d\n") ++
        ("// " ++ iface.Type_ ++ " implements " ++ iface.Name ++ " DBus interface.\n" ++
          "type " ++ iface.Type_ ++ " struct \x7b\n" ++
          "\tobject dbus.BusObject\n" ++
          "\x7d\n") ++
        String.join (iface.Methods.map (methodText iface)) ++
        String.join ((iface.Properties.filter fun p => p.Read).map (propertyText iface)) ++
        String.join (iface.Signals.map (signalText iface)) := by
  rw [writeIface_buf, factoryText_eq, proxyText_eq]

set_option maxRecDepth 100000 in
theorem signalText_eq (iface : Interface) (sig : Signal) :
    signalText iface sig =
      "// " ++ sig.Type_ ++ " represents " ++ sig.Name ++ "." ++ iface.Name ++ " signal.\n" ++
      "type " ++ sig.Type_ ++ " struct \x7b\n" ++
      "\tsender string\n" ++
      "\tpath   dbus.ObjectPath\n" ++
      "\tbody   " ++ sig.Type_ ++ "Body\n" ++
      "\x7d\n" ++
      "\n" ++
      "type " ++ sig.Type_ ++ "Body struct \x7b\n" ++
      "\t" ++ joinArgs sig.Args ';' ++ "\n" ++
      "\x7d\n" ++
      "\n" ++
      "// Name returns the signal's name.\n" ++
      "func (s *" ++ sig.Type_ ++ ") Name() string \x7b\n" ++
      "\treturn \"" ++ sig.Name ++ "\"\n" ++
      "\x7d\n" ++
      "\n" ++
      "// Interface returns the signal's interface.\n" ++
      "func (s *" ++ sig.Type_ ++ ") Interface() string \x7b\n" ++
      "\treturn \"" ++ iface.Name ++ "\"\n" ++
      "\x7d\n" ++
      "\n" ++
      "// Sender returns the signal's sender unique name.\n" ++
      "func (s *" ++ sig.Type_ ++ ") Sender() string \x7b\n" ++
      "\treturn s.sender\n" ++
      "\x7d\n" ++
      "\n" ++
      "// Path returns path that emitted the signal. \n" ++
      "func (s *" ++ sig.Type_ ++ ") Path() dbus.ObjectPath \x7b\n" ++
      "\treturn s.path\n" ++
      "\x7d\n" ++
      "\n" ++
      "// Body returns the signals' payload.\n" ++
      "func (s *" ++ sig.Type_ ++ ") Body() " ++ sig.Type_ ++ "Body \x7b\n" ++
      "\treturn s.body\n" ++
      "\x7d\n" := by
  simp only [String.append_assoc]
  rfl

/-- C13: for every interface and every signal of it, the event type
`writeIface` emits has an accessor `Name` returning the literal of the bare
name of the signal, an accessor `Interface` returning the literal of the name
of the interface, and accessors `Sender`, `Path` and `Body` returning the
stored sender, path and payload; the payload structure has one field
`name type;` per argument, in declaration order. -/
theorem writeIface_event_type (buf : buffer) (iface : Interface) (signals : SignalMap) :
    (writeIface buf iface signals).1.buf =
        buf.buf ++ factoryText iface ++ proxyText iface ++
          String.join (iface.Methods.map (methodText iface)) ++
          String.join ((iface.Properties.filter fun p => p.Read).map (propertyText iface)) ++
          String.join (iface.Signals.map fun sig =>
            "// " ++ sig.Type_ ++ " represents " ++ sig.Name ++ "." ++ iface.Name ++ " signal.\n" ++
            "type " ++ sig.Type_ ++ " struct \x7b\n" ++
            "\tsender string\n" ++
            "\tpath   dbus.ObjectPath\n" ++
            "\tbody   " ++ sig.Type_ ++ "Body\n" ++
            "\x7d\n" ++
            "\n" ++
            "type " ++ sig.Type_ ++ "Body struct \x7b\n" ++
            "\t" ++ String.join (sig.Args.map fun a => a.Name ++ " " ++ a.Type_ ++ ";") ++ "\n" ++
            "\x7d\n" ++
            "\n" ++
            "// Name returns the signal's name.\n" ++
            "func (s *" ++ sig.Type_ ++ ") Name() string \x7b\n" ++
            "\treturn \"" ++ sig.Name ++ "\"\n" ++
            "\x7d\n" ++
            "\n" ++
            "// Interface returns the signal's interface.\n" ++
            "func (s *" ++ sig.Type_ ++ ") Interface() string \x7b\n" ++
            "\treturn \"" ++ iface.Name ++ "\"\n" ++
            "\x7d\n" ++
            "\n" ++
            "// Sender returns the signal's sender unique name.\n" ++
            "func (s *" ++ sig.Type_ ++ ") Sender() string \x7b\n" ++
            "\treturn s.sender\n" ++
            "\x7d\n" ++
            "\n" ++
            "// Path returns path that emitted the signal. \n" ++
            "func (s *" ++ sig.Type_ ++ ") Path() dbus.ObjectPath \x7b\n" ++
            "\treturn s.path\n" ++
            "\x7d\n" ++
            "\n" ++
            "// Body returns the signals' payload.\n" ++
            "func (s *" ++ sig.Type_ ++ ") Body() " ++ sig.Type_ ++ "Body \x7b\n" ++
            "\treturn s.body\n" ++
            "\x7d\n")
      ∧ ∀ args : List Arg,
          (args.map fun a => a.Name ++ " " ++ a.Type_ ++ ";").length = args.length
          ∧ ∀ i : Nat, (args.map fun a => a.Name ++ " " ++ a.Type_ ++ ";")[i]?
              = args[i]?.map fun a => a.Name ++ " " ++ a.Type_ ++ ";" := by
  refine ⟨?_, fun args => ⟨by simp, fun i => by simp⟩⟩
  have hc : String.singleton ';' = ";" := rfl
  have h : signalText iface = fun sig => _ :=
    funext fun sig => (signalText_eq iface sig).trans (by rw [joinArgs_eq, hc])
  rw [writeIface_buf, h]

set_option maxRecDepth 1000000 in
/-- C12, the code at the scenario of the specification: for the interface
`org.example.Demo` with the signal `Changed` of one argument `value` of type
string, the text `Print` assembles has no `Value() string` and no method
`Value` on the event type `Changed`. -/
theorem scenario_has_no_argument_accessor :
    occurrences "Value() string" (assembledText id "demo" [scenarioIface]) = 0
      ∧ occurrences "func (s *Changed) Value" (assembledText id "demo" [scenarioIface]) = 0 := by
  refine ⟨by decide, by decide⟩

set_option maxRecDepth 1000000 in
/-- C12 as amended: for every signal, the event type exposes the arguments
through one accessor, `Body`, which returns the payload structure
`<Type>Body`; the fields of that structure are the arguments, `name type;`
each, in declaration order. The accessors of an event type are `Name`,
`Interface`, `Sender`, `Path` and `Body`, and none is named after an argument.
In the scenario of the specification the text declares the field
`value string;` and `func (s *Changed) Body() ChangedBody`, once each, and
five methods on `Changed`. -/
theorem event_type_exposes_body (iface : Interface) (sig : Signal) :
    signalText iface sig =
        ("// " ++ sig.Type_ ++ " represents " ++ sig.Name ++ "." ++ iface.Name ++ " signal.\n" ++
          "type " ++ sig.Type_ ++ " struct \x7b\n" ++
          "\tsender string\n" ++
          "\tpath   dbus.ObjectPath\n" ++
          "\tbody   " ++ sig.Type_ ++ "Body\n" ++
          "\x7d\n" ++
          "\n" ++
          "type " ++ sig.Type_ ++ "Body struct \x7b\n" ++
          "\t" ++ String.join (sig.Args.map fun a => a.Name ++ " " ++ a.Type_ ++ ";") ++ "\n" ++
          "\x7d\n") ++
        String.join [
          "\n" ++
            "// Name returns the signal's name.\n" ++
            "func (s *" ++ sig.Type_ ++ ") Name() string \x7b\n" ++
            "\treturn \"" ++ sig.Name ++ "\"\n" ++
            "\x7d\n",
          "\n" ++
            "// Interface returns the signal's interface.\n" ++
            "func (s *" ++ sig.Type_ ++ ") Interface() string \x7b\n" ++
            "\treturn \"" ++ iface.Name ++ "\"\n" ++
            "\x7d\n",
          "\n" ++
            "// Sender returns the signal's sender unique name.\n" ++
            "func (s *" ++ sig.Type_ ++ ") Sender() string \x7b\n" ++
            "\treturn s.sender\n" ++
            "\x7d\n",
          "\n" ++
            "// Path returns path that emitted the signal. \n" ++
            "func (s *" ++ sig.Type_ ++ ") Path() dbus.ObjectPath \x7b\n" ++
            "\treturn s.path\n" ++
            "\x7d\n",
          "\n" ++
            "// Body returns the signals' payload.\n" ++
            "func (s *" ++ sig.Type_ ++ ") Body() " ++ sig.Type_ ++ "Body \x7b\n" ++
            "\treturn s.body\n" ++
            "\x7d\n"]
      ∧ occurrences "\tvalue string;\n" (assembledText id "demo" [scenarioIface]) = 1
      ∧ occurrences "func (s *Changed) Body() ChangedBody"
          (assembledText id "demo" [scenarioIface]) = 1
      ∧ occurrences "func (s *Changed) " (assembledText id "demo" [scenarioIface]) = 5 := by
  refine ⟨?_, by decide, by decide, by decide⟩
  have hc : String.singleton ';' = ";" := rfl
  rw [signalText_eq, joinArgs_eq, hc]
  simp only [join_cons, join_nil, String.append_assoc, String.append_empty]

set_option maxRecDepth 1000000 in
/-- C15, the code at the interface of the test program: the factory
`NewOrg_Freedesktop_DBus` is emitted with the three parameters `conn`, `dest`
and `path`, not with the remote object as its one parameter, and `GetId`, a
method without inputs, is emitted with an empty parameter list, so it takes no
context; the word `context` occurs nowhere in the text of the interface. -/
theorem test_call_shapes_not_emitted :
    (writeIface ⟨""⟩ dbusIface []).1.buf = String.join [
        "// Org_Freedesktop_DBus returns org.freedesktop.DBus DBus interface implementation.\n",
        "func NewOrg_Freedesktop_DBus(conn *dbus.Conn, dest string, path dbus.ObjectPath) *Org_Freedesktop_DBus \x7b\n",
        "\treturn &Org_Freedesktop_DBus\x7bconn.Object(dest, path)\x7d\n",
        "\x7d\n",
        "// Org_Freedesktop_DBus implements org.freedesktop.DBus DBus interface.\n",
        "type Org_Freedesktop_DBus struct \x7b\n",
        "\tobject dbus.BusObject\n",
        "\x7d\n",
        "// Org_Freedesktop_DBus calls org.freedesktop.DBus.GetId method.\n",
        "func(o *Org_Freedesktop_DBus) GetId() (id string,err error) \x7b\n",
        "\terr = o.object.Call(\"org.freedesktop.DBus.GetId\", 0, ).Store(&id)\n",
        "\treturn\n",
        "\x7d\n"]
      ∧ occurrences "context" (writeIface ⟨""⟩ dbusIface []).1.buf = 0
      ∧ joinArgs getIdMethod.In ',' = "" := by
  refine ⟨by decide, by decide, by decide⟩

set_option maxRecDepth 1000000 in
/-- C19: the identifier of the event type of a signal comes from the
identifier of the signal alone. The text of an event type is the same
whatever the identifier of the owning interface, and the clause of the lookup
constructs `&<Signal identifier>`. For the model `collidingIfaces`, two
interfaces of different names that each declare a signal with the identifier
`Changed`, the assembled text declares `type Changed struct` twice and
`type ChangedBody struct` twice, and the lookup has two clauses that return
`&Changed`, in whichever order the registry is visited. -/
theorem event_type_identifier_collides :
    (∀ (iface : Interface) (t : String) (sig : Signal),
        signalText { iface with Type_ := t } sig = signalText iface sig)
      ∧ (∀ (key : String) (sig : Signal),
          caseText key sig =
            "\tcase \"" ++ key ++ "." ++ sig.Name ++ "\":\n" ++
            "\t\treturn &" ++ sig.Type_ ++ "\x7b\n" ++
            "\t\t\tsender: signal.Sender,\n" ++
            "\t\t\tpath:   signal.Path,\n" ++
            "\t\t\tbody:   " ++ sig.Type_ ++ "Body\x7b\n")
      ∧ collidingIfaces.map (fun i => i.Name) = ["org.example.A", "org.example.B"]
      ∧ collidingIfaces.map (fun i => i.Signals.map fun s => s.Type_)
          = [["Changed"], ["Changed"]]
      ∧ occurrences "type Changed struct" (assembledText id "demo" collidingIfaces) = 2
      ∧ occurrences "type ChangedBody struct" (assembledText id "demo" collidingIfaces) = 2
      ∧ occurrences "\t\treturn &Changed\x7b\n" (assembledText id "demo" collidingIfaces) = 2
      ∧ occurrences "\tcase \"org.example.A.Changed\":\n\t\treturn &Changed\x7b\n"
          (assembledText id "demo" collidingIfaces) = 1
      ∧ occurrences "\tcase \"org.example.B.Changed\":\n\t\treturn &Changed\x7b\n"
          (assembledText id "demo" collidingIfaces) = 1
      ∧ occurrences "\t\treturn &Changed\x7b\n"
          (assembledText List.reverse "demo" collidingIfaces) = 2 := by
  refine ⟨fun _ _ _ => rfl, caseText_eq, by decide, by decide, by decide, by decide,
    by decide, by decide, by decide, by decide⟩

/-! ## The header -/

theorem buffer_eq_of_buf (x y : buffer) (h : x.buf = y.buf) : x = y := by
  cases x; cases y; simp only [buffer.mk.injEq]; exact h

theorem linesText_nil : linesText [] = "" := rfl

theorem linesText_cons (l : String) (ls : List String) :
    linesText (l :: ls) = l ++ "\n" ++ linesText ls := by
  rw [linesText, List.map_cons, join_cons, linesText]

theorem linesText_append (l₁ l₂ : List String) :
    linesText (l₁ ++ l₂) = linesText l₁ ++ linesText l₂ := by
  rw [linesText, List.map_append, join_append, linesText, linesText]

theorem rangeLoop_of_step {α : Type} (body : Nat → α → buffer → buffer)
    (f : Nat → α → String) (h : ∀ i x s, body i x s = ⟨s.buf ++ f i x⟩)
    (xs : List α) (i : Nat) (b : buffer) :
    rangeLoop body i xs b
      = ⟨b.buf ++ String.join (xs.enumFrom i |>.map fun e => f e.1 e.2)⟩ := by
  have hb : body = fun j x (acc : buffer) => (⟨acc.buf ++ f j x⟩ : buffer) :=
    funext fun j => funext fun x => funext fun s => h j x s
  rw [hb]
  exact rangeLoop_append f xs i b

theorem foldl_writeln_names {α : Type} (g : α → String) (xs : List α) (b : buffer) :
    xs.foldl (fun buf x => buf.writeln ["//     ", g x]) b
      = ⟨b.buf ++ linesText (xs.map fun x => "//     " ++ g x)⟩ := by
  have hstep : (fun (buf : buffer) x => buf.writeln ["//     ", g x])
      = fun buf x => (⟨buf.buf ++ ("//     " ++ g x ++ "\n")⟩ : buffer) := by
    funext buf x
    apply buffer_eq_of_buf
    rw [writeln_buf]
    simp only [join_cons, join_nil, String.append_empty, String.append_assoc]
  rw [hstep, foldl_buffer_join, linesText, List.map_map]
  rfl

theorem subList_step {α : Type} (heading : String) (g : α → String) (xs : List α)
    (b : buffer) :
    (if xs.length ≠ 0 then
        xs.foldl (fun buf x => buf.writeln ["//     ", g x]) (b.writeln [heading])
      else b)
      = ⟨b.buf ++ linesText (referenceSubList heading (xs.map g))⟩ := by
  cases xs with
  | nil =>
    apply buffer_eq_of_buf
    simp [referenceSubList, linesText_nil]
  | cons x xs =>
    have hne : (x :: xs).length ≠ 0 := by simp
    rw [if_pos hne, foldl_writeln_names]
    apply buffer_eq_of_buf
    have hr : referenceSubList heading ((x :: xs).map g)
        = heading :: ((x :: xs).map g).map fun n => "//     " ++ n := by
      simp [referenceSubList]
    rw [hr, linesText_cons, writeln_buf, List.map_map]
    simp only [join_cons, join_nil, String.append_empty, String.append_assoc]
    rfl

theorem enumFrom_succ_map {α : Type} (g : α → String) (xs : List α) (i : Nat) :
    ((xs.enumFrom (i + 1)).map fun e => (if e.1 ≠ 0 then "//\n" else "") ++ g e.2)
      = xs.map fun x => "//\n" ++ g x := by
  induction xs generalizing i with
  | nil => rfl
  | cons x xs ih =>
    rw [List.enumFrom_cons, List.map_cons, List.map_cons, ih (i + 1)]
    simp

theorem linesText_intercalate (b : List String) (bs : List (List String)) :
    linesText (List.intercalate ["//"] (b :: bs))
      = linesText b ++ String.join (bs.map fun c => "//\n" ++ linesText c) := by
  induction bs generalizing b with
  | nil => simp [List.intercalate, join_nil, linesText]
  | cons c cs ih =>
    have h : List.intercalate ["//"] (b :: c :: cs)
        = b ++ ("//" :: List.intercalate ["//"] (c :: cs)) := by
      simp [List.intercalate]
    have hs : ∀ x : String, "//" ++ ("\n" ++ x) = "//\n" ++ x := fun x => by
      rw [← String.append_assoc]; rfl
    rw [h, linesText_append, linesText_cons, ih, List.map_cons, join_cons]
    simp only [String.append_assoc, hs]

theorem header_iface_step (i : Nat) (iface : Interface) (s : buffer) :
    (let buf := if i ≠ 0 then s.writeln ["//"] else s
     let buf := buf.writeln ["// ", iface.Name]
     let buf :=
       if iface.Methods.length ≠ 0 then
         let buf := buf.writeln ["//   Methods"]
         iface.Methods.foldl (fun buf method => buf.writeln ["//     ", method.Name]) buf
       else buf
     let buf :=
       if iface.Properties.length ≠ 0 then
         let buf := buf.writeln ["//   Properties"]
         iface.Properties.foldl (fun buf prop => buf.writeln ["//     ", prop.Name]) buf
       else buf
     let buf :=
       if iface.Signals.length ≠ 0 then
         let buf := buf.writeln ["//   Signals"]
         iface.Signals.foldl (fun buf sig => buf.writeln ["//     ", sig.Name]) buf
       else buf
     buf)
      = ⟨s.buf ++ ((if i ≠ 0 then "//\n" else "") ++ linesText (referenceIfaceLines iface))⟩ := by
  simp only []
  rw [subList_step "//   Signals" (fun sg : Signal => sg.Name),
    subList_step "//   Properties" (fun p : Property => p.Name),
    subList_step "//   Methods" (fun m : Method => m.Name)]
  apply buffer_eq_of_buf
  simp only [referenceIfaceLines, linesText_append, linesText_cons, linesText_nil, writeln_buf,
    join_cons, join_nil, String.append_empty, String.append_assoc]
  by_cases hi : i = 0
  · simp [hi]
  · simp only [ne_eq, hi, not_false_eq_true, if_true, writeln_buf, join_cons, join_nil,
      String.append_empty, String.append_assoc]
    rfl

theorem writeHeader_buf (buf : buffer) (pkgName : String) (ifaces : List Interface) :
    (writeHeader buf pkgName ifaces).1.buf = buf.buf ++ referenceHeader pkgName ifaces := by
  have hloop := fun b => rangeLoop_of_step _ _ header_iface_step ifaces 0 b
  simp only [writeHeader, hloop, writeln_buf]
  have hblocks : String.join ((ifaces.enumFrom 0).map fun e =>
      (if e.1 ≠ 0 then "//\n" else "") ++ linesText (referenceIfaceLines e.2))
      = linesText (List.intercalate ["//"] (ifaces.map referenceIfaceLines)) := by
    cases ifaces with
    | nil => rfl
    | cons x xs =>
      rw [List.enumFrom_cons, List.map_cons, join_cons,
        enumFrom_succ_map (fun y => linesText (referenceIfaceLines y)) xs 0,
        List.map_cons, linesText_intercalate, List.map_map]
      simp [Function.comp_def]
  rw [hblocks, referenceHeader, referencePreambleLines]
  simp only [linesText_append, linesText_cons, linesText_nil, join_cons, join_nil,
    String.append_empty, String.append_assoc]

/-- C16: for every model and output name, the text `writeHeader` emits is the
reference layout: the fixed banner line, a `//` line, the interfaces in input
order separated by a `//` line, each as a heading line with its qualified name
followed by the sub-lists `Methods`, `Properties` and `Signals`, then the
`package` line and the import line. A sub-list is absent when its sequence is
empty, and otherwise is its heading line and one line per name in declaration
order. -/
theorem writeHeader_reference_layout (buf : buffer) (pkgName : String)
    (ifaces : List Interface) :
    (writeHeader buf pkgName ifaces).1.buf = buf.buf ++ referenceHeader pkgName ifaces
      ∧ (writeHeader buf pkgName ifaces).2 = none
      ∧ (∀ heading : String, referenceSubList heading [] = [])
      ∧ (∀ (heading name : String) (names : List String),
          referenceSubList heading (name :: names)
            = heading :: ("//     " ++ name) :: names.map fun n => "//     " ++ n) := by
  refine ⟨writeHeader_buf buf pkgName ifaces, rfl, fun _ => rfl, fun heading name names => ?_⟩
  simp [referenceSubList]

theorem mem_intercalate (l : String) (bs : List (List String))
    (h : l ∈ List.intercalate ["//"] bs) : l = "//" ∨ ∃ b ∈ bs, l ∈ b := by
  induction bs with
  | nil => simp [List.intercalate] at h
  | cons b bs ih =>
    cases bs with
    | nil =>
      have hb : l ∈ b := by simpa [List.intercalate] using h
      exact Or.inr ⟨b, List.mem_cons_self _ _, hb⟩
    | cons c cs =>
      have hi : List.intercalate ["//"] (b :: c :: cs)
          = b ++ ("//" :: List.intercalate ["//"] (c :: cs)) := by
        simp [List.intercalate]
      rw [hi, List.mem_append, List.mem_cons] at h
      rcases h with h | h | h
      · exact Or.inr ⟨b, List.mem_cons_self _ _, h⟩
      · exact Or.inl h
      · rcases ih h with h | ⟨d, hd, hl⟩
        · exact Or.inl h
        · exact Or.inr ⟨d, List.mem_cons_of_mem _ hd, hl⟩

theorem comment_line (p n : String) (hp : "//".data <+: p.data) (hpn : NoLineBreak p)
    (hn : NoLineBreak n) : "//".data <+: (p ++ n).data ∧ NoLineBreak (p ++ n) := by
  constructor
  · rw [String.data_append]
    exact hp.trans (List.prefix_append _ _)
  · unfold NoLineBreak at *
    rw [String.data_append, List.mem_append]
    exact fun h => h.elim hpn hn

theorem mem_subList (l heading : String) (names : List String)
    (h : l ∈ referenceSubList heading names) :
    l = heading ∨ ∃ n ∈ names, l = "//     " ++ n := by
  unfold referenceSubList at h
  split at h
  · simp at h
  · rcases List.mem_cons.1 h with h | h
    · exact Or.inl h
    · obtain ⟨n, hn, rfl⟩ := List.mem_map.1 h
      exact Or.inr ⟨n, hn, rfl⟩

theorem empty_noLineBreak : NoLineBreak "" := by
  unfold NoLineBreak
  decide

/-- C20: for every model in which no interface, method, property or signal
name holds a line break, the text `writeHeader` emits is a sequence of lines,
then the `package` line and the import line, and every line of that sequence
starts with `//` and holds no line break of its own: all that comes before the
`package` line is comment. -/
theorem header_preamble_is_comment (buf : buffer) (pkgName : String)
    (ifaces : List Interface) (h : NamesOnOneLine ifaces) :
    (writeHeader buf pkgName ifaces).1.buf =
        buf.buf ++ linesText (referencePreambleLines ifaces) ++
          "package " ++ pkgName ++ "\n" ++ "import \"github.com/godbus/dbus\"\n"
      ∧ ∀ l ∈ referencePreambleLines ifaces, "//".data <+: l.data ∧ NoLineBreak l := by
  constructor
  · rw [writeHeader_buf, referenceHeader]
    simp only [linesText_append, linesText_cons, linesText_nil, String.append_empty,
      String.append_assoc]
    rfl
  · intro l hl
    have hfix : ∀ t : String, "//".data <+: t.data → NoLineBreak t →
        "//".data <+: (t ++ "").data ∧ NoLineBreak (t ++ "") :=
      fun t h1 h2 => comment_line t "" h1 h2 empty_noLineBreak
    have hlit : ∀ (t n : String), "//".data <+: t.data → NoLineBreak t → NoLineBreak n →
        ∀ x, x = t ++ n → "//".data <+: x.data ∧ NoLineBreak x :=
      fun t n h1 h2 h3 x hx => hx ▸ comment_line t n h1 h2 h3
    have hsub : ∀ (heading : String) (names : List String),
        "//".data <+: heading.data → NoLineBreak heading → (∀ n ∈ names, NoLineBreak n) →
        ∀ x ∈ referenceSubList heading names, "//".data <+: x.data ∧ NoLineBreak x := by
      intro heading names h1 h2 h3 x hx
      rcases mem_subList x heading names hx with hx | ⟨n, hn, hx⟩
      · rw [hx]; exact ⟨h1, h2⟩
      · exact hlit "//     " n (by decide) (by unfold NoLineBreak; decide) (h3 n hn) x hx
    rw [referencePreambleLines, List.mem_append] at hl
    rcases hl with hl | hl
    · simp only [List.mem_cons, List.mem_singleton, List.not_mem_nil, or_false] at hl
      rcases hl with hl | hl
      · rw [hl]; exact ⟨by decide, by unfold NoLineBreak; decide⟩
      · rw [hl]; exact ⟨by decide, by unfold NoLineBreak; decide⟩
    · rcases mem_intercalate l _ hl with hl | ⟨b, hb, hlb⟩
      · rw [hl]; exact ⟨by decide, by unfold NoLineBreak; decide⟩
      · obtain ⟨iface, hmem, rfl⟩ := List.mem_map.1 hb
        obtain ⟨hname, hm, hp, hs⟩ := h iface hmem
        simp only [referenceIfaceLines, List.mem_append, List.mem_singleton] at hlb
        rcases hlb with ((hlb | hlb) | hlb) | hlb
        · exact hlit "// " iface.Name (by decide) (by unfold NoLineBreak; decide) hname l hlb
        · exact hsub "//   Methods" _ (by decide) (by unfold NoLineBreak; decide)
            (fun n hn => by
              obtain ⟨m, hmm, rfl⟩ := List.mem_map.1 hn
              exact hm m hmm) l hlb
        · exact hsub "//   Properties" _ (by decide) (by unfold NoLineBreak; decide)
            (fun n hn => by
              obtain ⟨m, hmm, rfl⟩ := List.mem_map.1 hn
              exact hp m hmm) l hlb
        · exact hsub "//   Signals" _ (by decide) (by unfold NoLineBreak; decide)
            (fun n hn => by
              obtain ⟨m, hmm, rfl⟩ := List.mem_map.1 hn
              exact hs m hmm) l hlb

/-- Witness of C20: the model of `demoIface`, whose names hold no line break. -/
theorem header_preamble_is_comment_witness :
    NamesOnOneLine [demoIface]
      ∧ ∀ l ∈ referencePreambleLines [demoIface], "//".data <+: l.data ∧ NoLineBreak l :=
  ⟨by unfold NamesOnOneLine NoLineBreak; decide,
   (header_preamble_is_comment ⟨""⟩ "demo" [demoIface]
      (by unfold NamesOnOneLine NoLineBreak; decide)).2⟩

/-! ## The labels of the lookup -/

theorem label_inj (a b s t : String) (hs : '.' ∉ s.data) (ht : '.' ∉ t.data)
    (h : a ++ "." ++ s = b ++ "." ++ t) : a = b ∧ s = t := by
  have hd := congrArg String.data h
  simp only [String.data_append, List.append_assoc] at hd
  rw [List.singleton_append, List.singleton_append] at hd
  rcases List.append_eq_append_iff.1 hd with ⟨c, hb, hc⟩ | ⟨c, ha, hc⟩
  · cases c with
    | nil =>
      simp only [List.nil_append, List.cons.injEq, true_and] at hc
      simp only [List.append_nil] at hb
      exact ⟨String.ext hb.symm, String.ext hc⟩
    | cons x c =>
      simp only [List.cons_append, List.cons.injEq] at hc
      exact absurd (by rw [hc.2]; simp) hs
  · cases c with
    | nil =>
      simp only [List.nil_append, List.cons.injEq, true_and] at hc
      simp only [List.append_nil] at ha
      exact ⟨String.ext ha, String.ext hc.symm⟩
    | cons x c =>
      simp only [List.cons_append, List.cons.injEq] at hc
      exact absurd (by rw [hc.2]; simp) ht

theorem model_labels_nodup (ifaces : List Interface)
    (hd : (ifaces.map fun i => i.Name).Nodup)
    (hs : ∀ i ∈ ifaces, (i.Signals.map fun sg => sg.Name).Nodup)
    (hdot : ∀ i ∈ ifaces, ∀ sg ∈ i.Signals, '.' ∉ sg.Name.data) :
    (ifaces.flatMap fun i => i.Signals.map fun sg => i.Name ++ "." ++ sg.Name).Nodup := by
  rw [List.nodup_flatMap]
  constructor
  · intro i hi
    have h1 : (i.Signals.map fun sg => i.Name ++ "." ++ sg.Name)
        = (i.Signals.map fun sg => sg.Name).map fun n => i.Name ++ "." ++ n := by
      rw [List.map_map]; rfl
    rw [h1]
    apply List.Nodup.map _ (hs i hi)
    intro n m hnm
    exact append_cancel_left _ _ _ hnm
  · have hp : List.Pairwise (fun a b : Interface => a.Name ≠ b.Name) ifaces :=
      List.pairwise_map.1 hd
    refine hp.imp_of_mem ?_
    intro a b ha hb hab
    rw [Function.onFun, List.disjoint_left]
    intro l hla hlb
    obtain ⟨sa, hsa, rfl⟩ := List.mem_map.1 hla
    obtain ⟨sb, hsb, heq⟩ := List.mem_map.1 hlb
    exact hab (label_inj _ _ _ _ (hdot b hb sb hsb) (hdot a ha sa hsa) heq).1.symm

set_option maxRecDepth 1000000 in
/-- C18, the code at a model whose interface names are pairwise distinct and
whose signal names are pairwise distinct within each interface: with the
interfaces `org.example` (signal `Demo.Changed`) and `org.example.Demo` (signal
`Changed`) the two case clauses of the lookup carry the same label
`org.example.Demo.Changed`, in whichever order the registry is visited. -/
theorem dotted_names_share_a_label :
    (dottedIfaces.map fun i => i.Name).Nodup
      ∧ (∀ i ∈ dottedIfaces, (i.Signals.map fun sg => sg.Name).Nodup)
      ∧ caseLabels (id (registryOf dottedIfaces))
          = ["org.example.Demo.Changed", "org.example.Demo.Changed"]
      ∧ caseLabels (List.reverse (registryOf dottedIfaces))
          = ["org.example.Demo.Changed", "org.example.Demo.Changed"]
      ∧ ¬ (caseLabels (id (registryOf dottedIfaces))).Nodup
      ∧ occurrences "\tcase \"org.example.Demo.Changed\":\n"
          (assembledText id "demo" dottedIfaces) = 2 := by
  refine ⟨by decide, by decide, by decide, by decide, by decide, by decide⟩

/-- C18 as amended: for every model in which interface names are pairwise
distinct, signal names are pairwise distinct within each interface and no
signal name holds a dot, no two case clauses of the lookup carry the same
label `<Interface.Name>.<Signal.Name>`, in whichever order the registry is
visited; the labels are those of the clauses `writeSignalFuncs` writes. -/
theorem case_labels_unique (rng : SignalMap → List (String × List Signal))
    (hrng : ValidRange rng) (ifaces : List Interface)
    (hd : (ifaces.map fun i => i.Name).Nodup)
    (hs : ∀ i ∈ ifaces, (i.Signals.map fun sg => sg.Name).Nodup)
    (hdot : ∀ i ∈ ifaces, ∀ sg ∈ i.Signals, '.' ∉ sg.Name.data) (buf : buffer) :
    (caseLabels (rng (registryOf ifaces))).Nodup
      ∧ (writeSignalFuncs rng buf (registryOf ifaces)).1.buf =
          buf.buf ++ signalContractText ++ lookupHeadText ++
            String.join ((lookupClauses (rng (registryOf ifaces))).map fun c =>
              "\tcase \"" ++ (c.1 ++ "." ++ c.2.Name) ++ "\":\n" ++
              "\t\treturn &" ++ c.2.Type_ ++ "\x7b\n" ++
              "\t\t\tsender: signal.Sender,\n" ++
              "\t\t\tpath:   signal.Path,\n" ++
              "\t\t\tbody:   " ++ c.2.Type_ ++ "Body\x7b\n" ++
              String.join (payloadEntries c.2.Args) ++
              "\t\t\t\x7d,\n" ++
              "\t\t\x7d\n") ++
            lookupTailText := by
  constructor
  · have h1 : (lookupClauses (rng (registryOf ifaces))).Perm (lookupClauses (registryOf ifaces)) :=
      List.Perm.flatMap_right _ (hrng (registryOf ifaces))
    have h2 : lookupClauses (registryOf ifaces)
        = ifaces.flatMap fun i => i.Signals.map fun s => (i.Name, s) := by
      rw [registryOf_distinct ifaces hd, lookupClauses_registry]
    rw [h2] at h1
    have h3 := h1.map fun c : String × Signal => c.1 ++ "." ++ c.2.Name
    rw [caseLabels, h3.nodup_iff, List.map_flatMap]
    simp only [List.map_map, Function.comp_def]
    exact model_labels_nodup ifaces hd hs hdot
  · rw [writeSignalFuncs_buf, signalFuncsText_eq]
    simp only [String.append_assoc]

/-- Witness of C18 as amended: the two interfaces of `twoIfaces`, the registry
visited in reverse. -/
theorem case_labels_unique_witness :
    ValidRange List.reverse ∧ (twoIfaces.map fun i => i.Name).Nodup
      ∧ (∀ i ∈ twoIfaces, (i.Signals.map fun sg => sg.Name).Nodup)
      ∧ (∀ i ∈ twoIfaces, ∀ sg ∈ i.Signals, '.' ∉ sg.Name.data)
      ∧ (caseLabels (List.reverse (registryOf twoIfaces))).Nodup :=
  ⟨fun m => List.reverse_perm m, by decide, by decide, by decide,
   (case_labels_unique List.reverse (fun m => List.reverse_perm m) twoIfaces
      (by decide) (by decide) (by decide) ⟨""⟩).1⟩

/-! ## Occurrences of a text in a concatenation -/

theorem occList_nil (n : List Char) (hn : n ≠ []) : occList n [] = 0 := by
  cases n with
  | nil => exact absurd rfl hn
  | cons c n => rfl

theorem occList_cons (n : List Char) (x : Char) (t : List Char) :
    occList n (x :: t) = (if n <+: x :: t then 1 else 0) + occList n t := by
  unfold occList
  rw [List.tails, List.filter_cons]
  by_cases h : n <+: x :: t
  · have hb : n.isPrefixOf (x :: t) = true := List.isPrefixOf_iff_prefix.2 h
    simp [hb, h, Nat.add_comm]
  · have hb : n.isPrefixOf (x :: t) = false := by
      rw [← Bool.not_eq_true, List.isPrefixOf_iff_prefix]; exact h
    simp [hb, h]

theorem occList_eq_zero_iff (n t : List Char) (hn : n ≠ []) :
    occList n t = 0 ↔ ¬ n <:+: t := by
  induction t with
  | nil => simp [occList_nil n hn, hn]
  | cons x t ih =>
    rw [occList_cons, List.infix_cons_iff, Nat.add_eq_zero_iff, ih]
    by_cases h : n <+: x :: t <;> simp [h]

/-- A needle that starts in a non-empty text `s` and is a prefix of `s ++ b`
lies within `s`, as soon as `s` does not end, or `b` does not start, with one
of its characters. -/
theorem prefix_of_append (n s b : List Char) (hs : s ≠ [])
    (hj : endsOutside n s = true ∨ startsOutside n b = true) (h : n <+: s ++ b) : n <+: s := by
  rcases List.prefix_or_prefix_of_prefix h (List.prefix_append s b) with h1 | h1
  · exact h1
  · obtain ⟨v, rfl⟩ := h1
    cases v with
    | nil => simp
    | cons c v =>
      exfalso
      have hb : (c :: v) <+: b := (List.prefix_append_right_inj s).1 h
      rcases hj with hj | hj
      · obtain ⟨z, hz⟩ : ∃ z, s.getLast? = some z := by
          cases hl : s.getLast? with
          | none => exact absurd (List.getLast?_eq_none_iff.1 hl) hs
          | some z => exact ⟨z, rfl⟩
        have hmem : z ∈ s := List.mem_of_getLast?_eq_some hz
        simp [endsOutside, hz] at hj
        exact hj.1 hmem
      · obtain ⟨w, hw⟩ := hb
        have hh : b.head? = some c := by rw [← hw]; rfl
        simp [startsOutside, hh] at hj

theorem endsOutside_tail (n : List Char) (x : Char) (a : List Char)
    (h : endsOutside n (x :: a) = true) : endsOutside n a = true := by
  cases a with
  | nil => rfl
  | cons y a => simpa [endsOutside, List.getLast?_cons_cons] using h

theorem occList_append (n a b : List Char) (hn : n ≠ [])
    (hj : endsOutside n a = true ∨ startsOutside n b = true) :
    occList n (a ++ b) = occList n a + occList n b := by
  induction a with
  | nil => simp [occList_nil n hn]
  | cons x a ih =>
    have hj' : endsOutside n a = true ∨ startsOutside n b = true :=
      hj.imp (endsOutside_tail n x a) id
    have hiff : n <+: x :: a ++ b ↔ n <+: x :: a :=
      ⟨prefix_of_append n (x :: a) b (by simp) hj, fun h => h.trans (List.prefix_append _ _)⟩
    rw [List.cons_append, occList_cons, occList_cons, ih hj', ← List.cons_append]
    simp only [hiff, Nat.add_assoc]

theorem occList_zero_of_part (w n t : List Char) (hw : w ≠ []) (hn : n ≠ [])
    (hwn : w <:+: n) (h : occList w t = 0) : occList n t = 0 := by
  rw [occList_eq_zero_iff n t hn]
  rw [occList_eq_zero_iff w t hw] at h
  exact fun hnt => h (hwn.trans hnt)

theorem occurrences_eq (n t : String) : occurrences n t = occList n.data t.data := rfl

theorem startsOutside_append (n a b : List Char) (ha : startsOutside n a = true)
    (hb : startsOutside n b = true) : startsOutside n (a ++ b) = true := by
  cases a with
  | nil => exact hb
  | cons x a => exact ha

theorem startsOutside_append_left (n a b : List Char) (hne : a ≠ [])
    (ha : startsOutside n a = true) : startsOutside n (a ++ b) = true := by
  cases a with
  | nil => exact absurd rfl hne
  | cons x a => exact ha

theorem endsOutside_append (n a b : List Char) (ha : endsOutside n a = true)
    (hb : endsOutside n b = true) : endsOutside n (a ++ b) = true := by
  unfold endsOutside at *
  rw [List.getLast?_append]
  cases hl : b.getLast? with
  | none => simpa using ha
  | some z => rw [hl] at hb; simpa using hb

theorem endsOutside_append_right (n a b : List Char) (hne : b ≠ [])
    (hb : endsOutside n b = true) : endsOutside n (a ++ b) = true := by
  unfold endsOutside at *
  rw [List.getLast?_append]
  cases hl : b.getLast? with
  | none => exact absurd (List.getLast?_eq_none_iff.1 hl) hne
  | some z => rw [hl] at hb; simpa using hb

theorem data_ne_nil (t : String) (h : t ≠ "") : t.data ≠ [] :=
  fun hd => h (String.ext hd)

theorem append_ne_empty (l r : String) (hl : l ≠ "") : l ++ r ≠ "" := by
  intro h
  have hd := congrArg String.data h
  rw [String.data_append] at hd
  exact data_ne_nil l hl (List.append_eq_nil.1 hd).1

/-! ## Texts without the word `Signal` -/

theorem quiet_append (a b : String) (ha : NoSignalWord a) (hb : NoSignalWord b)
    (hj : endsOutside "Signal".data a.data = true ∨ startsOutside "Signal".data b.data = true) :
    NoSignalWord (a ++ b) := by
  unfold NoSignalWord at *
  rw [occurrences_eq] at *
  rw [String.data_append, occList_append _ _ _ (by decide) hj, ha, hb]

theorem quiet_of_not_mem (t : String) (h : 'S' ∉ t.data) : NoSignalWord t := by
  unfold NoSignalWord
  rw [occurrences_eq, occList_eq_zero_iff _ _ (by decide)]
  intro hin
  exact h (hin.subset (by decide))

theorem shield_append (l r : String) (hl : Shield l) (hr : Shield r) : Shield (l ++ r) := by
  obtain ⟨l1, l2, l3, l4⟩ := hl
  obtain ⟨r1, r2, _, r4⟩ := hr
  refine ⟨quiet_append l r l1 r1 (Or.inl l4), append_ne_empty l r l2, ?_, ?_⟩
  · rw [String.data_append]
    exact startsOutside_append_left _ _ _ (data_ne_nil l l2) l3
  · rw [String.data_append]
    exact endsOutside_append_right _ _ _ (data_ne_nil r r2) r4

theorem shield_hole (l h r : String) (hl : Shield l) (hh : NoSignalWord h) (hr : Shield r) :
    Shield (l ++ (h ++ r)) := by
  obtain ⟨l1, l2, l3, l4⟩ := hl
  obtain ⟨r1, r2, r3, r4⟩ := hr
  have hq : NoSignalWord (h ++ r) := quiet_append h r hh r1 (Or.inr r3)
  refine ⟨quiet_append l _ l1 hq (Or.inl l4), append_ne_empty l _ l2, ?_, ?_⟩
  · rw [String.data_append]
    exact startsOutside_append_left _ _ _ (data_ne_nil l l2) l3
  · rw [String.data_append, String.data_append, ← List.append_assoc]
    exact endsOutside_append_right _ _ _ (data_ne_nil r r2) r4

theorem quiet_empty : NoSignalWord "" := by decide

theorem endsOutside_empty : endsOutside "Signal".data "".data = true := by decide

theorem startsOutside_empty : startsOutside "Signal".data "".data = true := by decide

/-- A hole followed by fixed text: no `Signal`, and a safe end. -/
theorem quiet_hole_lit (h l : String) (hh : NoSignalWord h) (hl : Shield l) :
    NoSignalWord (h ++ l) ∧ endsOutside "Signal".data (h ++ l).data = true := by
  obtain ⟨l1, l2, l3, l4⟩ := hl
  refine ⟨quiet_append h l hh l1 (Or.inr l3), ?_⟩
  rw [String.data_append]
  exact endsOutside_append_right _ _ _ (data_ne_nil l l2) l4

/-- Fixed text followed by a hole: no `Signal`, and a safe start. -/
theorem quiet_lit_hole (l h : String) (hl : Shield l) (hh : NoSignalWord h) :
    NoSignalWord (l ++ h) ∧ startsOutside "Signal".data (l ++ h).data = true := by
  obtain ⟨l1, l2, l3, l4⟩ := hl
  refine ⟨quiet_append l h l1 hh (Or.inl l4), ?_⟩
  rw [String.data_append]
  exact startsOutside_append_left _ _ _ (data_ne_nil l l2) l3

theorem quiet_join_ends {α : Type} (f : α → String) (xs : List α)
    (h : ∀ x ∈ xs, NoSignalWord (f x) ∧ endsOutside "Signal".data (f x).data = true) :
    NoSignalWord (String.join (xs.map f))
      ∧ endsOutside "Signal".data (String.join (xs.map f)).data = true := by
  induction xs with
  | nil => rw [List.map_nil, join_nil]; exact ⟨quiet_empty, endsOutside_empty⟩
  | cons x xs ih =>
    rw [List.map_cons, join_cons]
    have hx := h x (List.mem_cons_self _ _)
    have hr := ih fun y hy => h y (List.mem_cons_of_mem _ hy)
    refine ⟨quiet_append _ _ hx.1 hr.1 (Or.inl hx.2), ?_⟩
    rw [String.data_append]
    exact endsOutside_append _ _ _ hx.2 hr.2

theorem quiet_join_starts {α : Type} (f : α → String) (xs : List α)
    (h : ∀ x ∈ xs, NoSignalWord (f x) ∧ startsOutside "Signal".data (f x).data = true) :
    NoSignalWord (String.join (xs.map f))
      ∧ startsOutside "Signal".data (String.join (xs.map f)).data = true := by
  induction xs with
  | nil => rw [List.map_nil, join_nil]; exact ⟨quiet_empty, startsOutside_empty⟩
  | cons x xs ih =>
    rw [List.map_cons, join_cons]
    have hx := h x (List.mem_cons_self _ _)
    have hr := ih fun y hy => h y (List.mem_cons_of_mem _ hy)
    refine ⟨quiet_append _ _ hx.1 hr.1 (Or.inr hr.2), ?_⟩
    rw [String.data_append]
    exact startsOutside_append _ _ _ hx.2 hr.2


/-! ## Texts sealed against a needle -/

theorem sealed_empty (N : String) (hN : Needle N) : Sealed N "" :=
  ⟨by rw [occurrences_eq]; exact occList_nil _ hN.1, rfl⟩

theorem sealed_append (N a b : String) (hN : Needle N) (ha : Sealed N a) (hb : Sealed N b) :
    Sealed N (a ++ b) := by
  refine ⟨?_, ?_⟩
  · have h1 := ha.1
    have h2 := hb.1
    rw [occurrences_eq] at *
    rw [String.data_append, occList_append _ _ _ hN.1 (Or.inl ha.2), h1, h2]
  · rw [String.data_append]
    exact endsOutside_append _ _ _ ha.2 hb.2

theorem sealed_join {α : Type} (N : String) (hN : Needle N) (f : α → String) (xs : List α)
    (h : ∀ x ∈ xs, Sealed N (f x)) : Sealed N (String.join (xs.map f)) := by
  induction xs with
  | nil => exact sealed_empty N hN
  | cons x xs ih =>
    rw [List.map_cons, join_cons]
    exact sealed_append N _ _ hN (h x (List.mem_cons_self _ _))
      (ih fun y hy => h y (List.mem_cons_of_mem _ hy))

theorem endsOutside_of_newline (N t : String) (hN : Needle N)
    (h : t.data.getLast? = some '\n') : endsOutside N.data t.data = true := by
  unfold endsOutside
  rw [h]
  simpa using hN.2.2

theorem getLast_append_lit (x l : String) (hl : l.data.getLast? = some '\n') :
    (x ++ l).data.getLast? = some '\n' := by
  rw [String.data_append, List.getLast?_append, hl]
  rfl

/-- A text without `Signal` that ends with a newline is sealed against every
needle. -/
theorem sealed_of_quiet (N t : String) (hN : Needle N) (hq : NoSignalWord t)
    (he : t.data.getLast? = some '\n') : Sealed N t :=
  ⟨occList_zero_of_part _ _ _ (by decide) hN.1 hN.2.1 hq, endsOutside_of_newline N t hN he⟩


theorem digitChar_ne_S : ∀ k, k < 10 → Nat.digitChar k ≠ 'S' := by decide

theorem toDigitsCore_no_S (fuel n : Nat) (ds : List Char) (h : 'S' ∉ ds) :
    'S' ∉ Nat.toDigitsCore 10 fuel n ds := by
  induction fuel generalizing n ds with
  | zero => simpa [Nat.toDigitsCore] using h
  | succ fuel ih =>
    have hd : 'S' ∉ Nat.digitChar (n % 10) :: ds := by
      rw [List.mem_cons, not_or]
      exact ⟨fun e => digitChar_ne_S _ (Nat.mod_lt _ (by decide)) e.symm, h⟩
    rw [Nat.toDigitsCore]
    split
    · exact hd
    · exact ih _ _ hd

theorem toString_quiet (i : Nat) : NoSignalWord (toString i) := by
  apply quiet_of_not_mem
  show 'S' ∉ (Nat.toDigits 10 i)
  exact toDigitsCore_no_S _ _ _ (by simp)

theorem joinArgs_quiet (args : List Arg) (sep : Char) (hsep : Shield (String.singleton sep))
    (h : ArgsNoSignalWord args) : NoSignalWord (joinArgs args sep) := by
  rw [joinArgs_eq]
  refine (quiet_join_ends _ _ ?_).1
  intro a ha
  have h1 := quiet_hole_lit a.Name " " (h a ha).1 (by decide)
  have h2 : NoSignalWord (a.Name ++ " " ++ a.Type_) :=
    quiet_append _ _ h1.1 (h a ha).2 (Or.inl h1.2)
  exact quiet_hole_lit _ _ h2 hsep

theorem intercalate_quiet (xs : List String) (h : ∀ x ∈ xs, NoSignalWord x) :
    NoSignalWord (String.intercalate "," xs) := by
  cases xs with
  | nil => exact quiet_empty
  | cons x xs =>
    rw [String.intercalate, intercalate_go_eq]
    have hr := quiet_join_starts (fun y => "," ++ y) xs fun y hy =>
      quiet_lit_hole "," y (by decide) (h y (List.mem_cons_of_mem _ hy))
    exact quiet_append _ _ (h x (List.mem_cons_self _ _)) hr.1 (Or.inr hr.2)

theorem joinArgNames_quiet (args : List Arg) (h : ArgsNoSignalWord args) :
    NoSignalWord (joinArgNames args) := by
  rw [joinArgNames_eq]
  apply intercalate_quiet
  intro x hx
  obtain ⟨a, ha, rfl⟩ := List.mem_map.1 hx
  exact (h a ha).1

theorem joinStoreArgs_quiet (args : List Arg) (h : ArgsNoSignalWord args) :
    NoSignalWord (joinStoreArgs args) := by
  rw [joinStoreArgs_eq]
  apply intercalate_quiet
  intro x hx
  obtain ⟨a, ha, rfl⟩ := List.mem_map.1 hx
  exact (quiet_lit_hole "&" a.Name (by decide) (h a ha).1).1

theorem qualified_quiet (a b : String) (ha : NoSignalWord a) (hb : NoSignalWord b) :
    NoSignalWord (a ++ "." ++ b) := by
  have h1 := quiet_hole_lit a "." ha (by decide)
  exact quiet_append _ _ h1.1 hb (Or.inl h1.2)

theorem factoryText_shield (iface : Interface) (h1 : NoSignalWord iface.Type_)
    (h2 : NoSignalWord iface.Name) : Shield (factoryText iface) := by
  rw [factoryText, factoryTemplate_filled]
  repeat (first
    | decide
    | refine shield_append _ _ (by decide) (by decide)
    | refine shield_hole _ _ _ (by decide) (by assumption) ?_
    | refine shield_append _ _ (by decide) ?_)

theorem proxyText_shield (iface : Interface) (h1 : NoSignalWord iface.Type_)
    (h2 : NoSignalWord iface.Name) : Shield (proxyText iface) := by
  rw [proxyText, proxyTemplate_filled]
  repeat (first
    | decide
    | refine shield_append _ _ (by decide) (by decide)
    | refine shield_hole _ _ _ (by decide) (by assumption) ?_
    | refine shield_append _ _ (by decide) ?_)

theorem methodText_shield (iface : Interface) (m : Method)
    (h1 : NoSignalWord iface.Type_) (h2 : NoSignalWord iface.Name) (h3 : NoSignalWord m.Name)
    (h4 : NoSignalWord m.Type_) (hin : ArgsNoSignalWord m.In) (hout : ArgsNoSignalWord m.Out) :
    Shield (methodText iface m) := by
  have h5 := joinArgs_quiet m.In ',' (by decide) hin
  have h6 := joinArgs_quiet m.Out ',' (by decide) hout
  have h7 := qualified_quiet iface.Name m.Type_ h2 h4
  have h8 := joinArgNames_quiet m.In hin
  have h9 := joinStoreArgs_quiet m.Out hout
  rw [methodText, methodTemplate_filled]
  repeat (first
    | decide
    | refine shield_append _ _ (by decide) (by decide)
    | refine shield_hole _ _ _ (by decide) (by assumption) ?_
    | refine shield_append _ _ (by decide) ?_)

theorem propertyText_shield (iface : Interface) (p : Property)
    (h1 : NoSignalWord iface.Type_) (h2 : NoSignalWord iface.Name) (h3 : NoSignalWord p.Name)
    (h4 : NoSignalWord p.Type_) (h5 : NoSignalWord p.Arg.Name)
    (h6 : NoSignalWord p.Arg.Type_) : Shield (propertyText iface p) := by
  rw [propertyText, propertyTemplate_filled]
  repeat (first
    | decide
    | refine shield_append _ _ (by decide) (by decide)
    | refine shield_hole _ _ _ (by decide) (by assumption) ?_
    | refine shield_append _ _ (by decide) ?_)

theorem signalText_shield (iface : Interface) (sig : Signal)
    (h2 : NoSignalWord iface.Name) (h3 : NoSignalWord sig.Name)
    (h4 : NoSignalWord sig.Type_) (hargs : ArgsNoSignalWord sig.Args) :
    Shield (signalText iface sig) := by
  have h5 := joinArgs_quiet sig.Args ';' (by decide) hargs
  rw [signalText_eq]
  simp only [String.append_assoc]
  repeat (first
    | decide
    | refine shield_append _ _ (by decide) (by decide)
    | refine shield_hole _ _ _ (by decide) (by assumption) ?_
    | refine shield_append _ _ (by decide) ?_)

theorem caseText_shield (key : String) (sig : Signal) (h1 : NoSignalWord key)
    (h3 : NoSignalWord sig.Name) (h4 : NoSignalWord sig.Type_) :
    Shield (caseText key sig) := by
  rw [caseText, caseTemplate_filled]
  repeat (first
    | decide
    | refine shield_append _ _ (by decide) (by decide)
    | refine shield_hole _ _ _ (by decide) (by assumption) ?_
    | refine shield_append _ _ (by decide) ?_)

theorem payloadText_shield (i : Nat) (arg : Arg) (h1 : NoSignalWord arg.Name)
    (h2 : NoSignalWord arg.Type_) : Shield (payloadText i arg) := by
  have h3 := toString_quiet i
  rw [payloadText, payloadTemplate_filled]
  exact shield_hole _ _ _ (by decide) h1 (shield_hole _ _ _ (by decide) h3
    (shield_hole _ _ _ (by decide) h2 (by decide)))


/-! ## The assembled text when no string of the model holds `Signal` -/

theorem line_sealed (N p n x : String) (hN : Needle N) (hp : Shield p)
    (hn : NoSignalWord n) (hx : x = p ++ n) : Sealed N (x ++ "\n") := by
  refine sealed_of_quiet N _ hN ?_ (getLast_append_lit _ _ rfl)
  rw [hx, String.append_assoc]
  exact (shield_hole p n "\n" hp hn (by decide)).1

theorem headerText_sealed (N : String) (hN : Needle N)
    (hlit : Sealed N "// Generated by dbusgen, don't edit!\n" ∧ Sealed N "//\n"
      ∧ Sealed N "//   Methods\n" ∧ Sealed N "//   Properties\n" ∧ Sealed N "//   Signals\n"
      ∧ Sealed N "import \"github.com/godbus/dbus\"\n")
    (pkgName : String) (ifaces : List Interface)
    (hq : ModelNoSignalWord pkgName ifaces) : Sealed N (headerText pkgName ifaces) := by
  obtain ⟨l1, l2, l3, l4, l5, l6⟩ := hlit
  have hh : headerText pkgName ifaces = referenceHeader pkgName ifaces := by
    rw [headerText, writeHeader_buf]
    exact String.empty_append _
  rw [hh, referenceHeader, linesText]
  apply sealed_join N hN
  intro l hl
  have hsub : ∀ (heading : String) (names : List String), Sealed N (heading ++ "\n") →
      (∀ n ∈ names, NoSignalWord n) →
      ∀ x ∈ referenceSubList heading names, Sealed N (x ++ "\n") := by
    intro heading names h1 h3 x hx
    rcases mem_subList x heading names hx with hx | ⟨n, hn, hx⟩
    · rw [hx]; exact h1
    · exact line_sealed N "//     " n x hN (by decide) (h3 n hn) hx
  rw [List.mem_append] at hl
  rcases hl with hl | hl
  · rw [referencePreambleLines, List.mem_append] at hl
    rcases hl with hl | hl
    · simp only [List.mem_cons, List.mem_singleton, List.not_mem_nil, or_false] at hl
      rcases hl with hl | hl
      · rw [hl]; exact l1
      · rw [hl]; exact l2
    · rcases mem_intercalate l _ hl with hl | ⟨b, hb, hlb⟩
      · rw [hl]; exact l2
      · obtain ⟨iface, hmem, rfl⟩ := List.mem_map.1 hb
        obtain ⟨hname, _, hm, hp, hs⟩ := hq.2 iface hmem
        simp only [referenceIfaceLines, List.mem_append, List.mem_singleton] at hlb
        rcases hlb with ((hlb | hlb) | hlb) | hlb
        · exact line_sealed N "// " iface.Name l hN (by decide) hname hlb
        · exact hsub "//   Methods" _ l3
            (fun n hn => by
              obtain ⟨m, hmm, rfl⟩ := List.mem_map.1 hn
              exact (hm m hmm).1) l hlb
        · exact hsub "//   Properties" _ l4
            (fun n hn => by
              obtain ⟨m, hmm, rfl⟩ := List.mem_map.1 hn
              exact (hp m hmm).1) l hlb
        · exact hsub "//   Signals" _ l5
            (fun n hn => by
              obtain ⟨m, hmm, rfl⟩ := List.mem_map.1 hn
              exact (hs m hmm).1) l hlb
  · simp only [List.mem_cons, List.mem_singleton, List.not_mem_nil, or_false] at hl
    rcases hl with hl | hl
    · exact line_sealed N "package " pkgName l hN (by decide) hq.1 hl
    · rw [hl]; exact l6

theorem ifaceText_sealed (N : String) (hN : Needle N) (iface : Interface)
    (h1 : NoSignalWord iface.Name) (h2 : NoSignalWord iface.Type_)
    (hm : ∀ m ∈ iface.Methods, NoSignalWord m.Name ∧ NoSignalWord m.Type_
        ∧ ArgsNoSignalWord m.In ∧ ArgsNoSignalWord m.Out)
    (hp : ∀ p ∈ iface.Properties, NoSignalWord p.Name ∧ NoSignalWord p.Type_
        ∧ NoSignalWord p.Arg.Name ∧ NoSignalWord p.Arg.Type_)
    (hs : ∀ sg ∈ iface.Signals, NoSignalWord sg.Name ∧ NoSignalWord sg.Type_
        ∧ ArgsNoSignalWord sg.Args) : Sealed N (ifaceText iface) := by
  rw [ifaceText]
  refine sealed_append N _ _ hN (sealed_append N _ _ hN (sealed_append N _ _ hN
    (sealed_append N _ _ hN ?_ ?_) ?_) ?_) ?_
  · refine sealed_of_quiet N _ hN (factoryText_shield iface h2 h1).1 ?_
    rw [factoryText_eq]; exact getLast_append_lit _ _ rfl
  · refine sealed_of_quiet N _ hN (proxyText_shield iface h2 h1).1 ?_
    rw [proxyText_eq]; exact getLast_append_lit _ _ rfl
  · refine sealed_join N hN _ _ fun m hmm => ?_
    obtain ⟨m1, m2, m3, m4⟩ := hm m hmm
    refine sealed_of_quiet N _ hN (methodText_shield iface m h2 h1 m1 m2 m3 m4).1 ?_
    rw [methodText_eq]; exact getLast_append_lit _ _ rfl
  · refine sealed_join N hN _ _ fun p hpp => ?_
    obtain ⟨p1, p2, p3, p4⟩ := hp p (List.mem_of_mem_filter hpp)
    refine sealed_of_quiet N _ hN (propertyText_shield iface p h2 h1 p1 p2 p3 p4).1 ?_
    rw [propertyText_eq]; exact getLast_append_lit _ _ rfl
  · refine sealed_join N hN _ _ fun sg hsg => ?_
    obtain ⟨s1, s2, s3⟩ := hs sg hsg
    refine sealed_of_quiet N _ hN (signalText_shield iface sg h1 s1 s2 s3).1 ?_
    rw [signalText_eq]; exact getLast_append_lit _ _ rfl

theorem clauseText_sealed (N : String) (hN : Needle N)
    (hlit : Sealed N "\t\t\t\x7d,\n" ∧ Sealed N "\t\t\x7d\n") (key : String) (sig : Signal)
    (h1 : NoSignalWord key) (h2 : NoSignalWord sig.Name) (h3 : NoSignalWord sig.Type_)
    (hargs : ArgsNoSignalWord sig.Args) : Sealed N (clauseText key sig) := by
  rw [clauseText]
  refine sealed_append N _ _ hN (sealed_append N _ _ hN (sealed_append N _ _ hN ?_ ?_)
    hlit.1) hlit.2
  · refine sealed_of_quiet N _ hN (caseText_shield key sig h1 h2 h3).1 ?_
    rw [caseText_eq]; exact getLast_append_lit _ _ rfl
  · rw [payloadEntries]
    refine sealed_join N hN _ _ fun e he => ?_
    have hmem : e.2 ∈ sig.Args := List.snd_mem_of_mem_enumFrom he
    refine sealed_of_quiet N _ hN
      (payloadText_shield e.1 e.2 (hargs e.2 hmem).1 (hargs e.2 hmem).2).1 ?_
    rw [payloadText_eq]; exact getLast_append_lit _ _ rfl

theorem mem_set (m : SignalMap) (k : String) (v : List Signal) (e : String × List Signal)
    (h : e ∈ m.set k v) : e ∈ m ∨ e = (k, v) := by
  unfold SignalMap.set at h
  split at h
  · obtain ⟨x, hx, rfl⟩ := List.mem_map.1 h
    by_cases hk : x.1 = k
    · rw [if_pos hk]; exact Or.inr rfl
    · rw [if_neg hk]; exact Or.inl hx
  · rcases List.mem_append.1 h with h | h
    · exact Or.inl h
    · exact Or.inr (List.mem_singleton.1 h)

theorem registry_entries (ifaces : List Interface) :
    ∀ e ∈ registryOf ifaces, ∃ i ∈ ifaces, e = (i.Name, i.Signals) := by
  rw [registryOf_fold]
  have hgen : ∀ (l : List Interface) (m0 : SignalMap),
      (∀ e ∈ m0, ∃ i ∈ ifaces, e = (i.Name, i.Signals)) → (∀ i ∈ l, i ∈ ifaces) →
      ∀ e ∈ l.foldl (fun (m : SignalMap) i =>
          if i.Signals.length > 0 then m.set i.Name i.Signals else m) m0,
        ∃ i ∈ ifaces, e = (i.Name, i.Signals) := by
    intro l
    induction l with
    | nil => intro m0 h0 _ e he; exact h0 e he
    | cons i l ih =>
      intro m0 h0 hl
      rw [List.foldl_cons]
      apply ih
      · intro e he
        split at he
        · rcases mem_set m0 _ _ e he with he | he
          · exact h0 e he
          · exact ⟨i, hl i (List.mem_cons_self _ _), he⟩
        · exact h0 e he
      · exact fun j hj => hl j (List.mem_cons_of_mem _ hj)
  exact hgen ifaces [] (fun e he => absurd he (List.not_mem_nil e)) (fun i hi => hi)


theorem userText_sealed (N : String) (hN : Needle N)
    (hlit : Sealed N "// Generated by dbusgen, don't edit!\n" ∧ Sealed N "//\n"
      ∧ Sealed N "//   Methods\n" ∧ Sealed N "//   Properties\n" ∧ Sealed N "//   Signals\n"
      ∧ Sealed N "import \"github.com/godbus/dbus\"\n")
    (pkgName : String) (ifaces : List Interface)
    (hq : ModelNoSignalWord pkgName ifaces) :
    Sealed N (headerText pkgName ifaces ++ String.join (ifaces.map ifaceText)) := by
  refine sealed_append N _ _ hN (headerText_sealed N hN hlit pkgName ifaces hq)
    (sealed_join N hN _ _ ?_)
  intro iface hi
  obtain ⟨h1, h2, hm, hp, hs⟩ := hq.2 iface hi
  exact ifaceText_sealed N hN iface h1 h2 hm hp hs

theorem clauses_sealed (N : String) (hN : Needle N)
    (hlit : Sealed N "\t\t\t\x7d,\n" ∧ Sealed N "\t\t\x7d\n")
    (rng : SignalMap → List (String × List Signal)) (hrng : ValidRange rng)
    (pkgName : String) (ifaces : List Interface) (hq : ModelNoSignalWord pkgName ifaces) :
    Sealed N (String.join ((lookupClauses (rng (registryOf ifaces))).map fun c =>
      clauseText c.1 c.2)) := by
  refine sealed_join N hN _ _ ?_
  intro c hc
  obtain ⟨sigs, he, hsg⟩ := (mem_lookupClauses _ c).1 hc
  obtain ⟨i, hi, heq⟩ := registry_entries ifaces _ ((hrng _).mem_iff.1 he)
  obtain ⟨h1, _, _, _, hs⟩ := hq.2 i hi
  have hk : c.1 = i.Name := congrArg Prod.fst heq
  have hv : sigs = i.Signals := congrArg Prod.snd heq
  rw [hv] at hsg
  obtain ⟨s1, s2, s3⟩ := hs c.2 hsg
  exact clauseText_sealed N hN hlit c.1 c.2 (hk ▸ h1) s1 s2 s3

theorem occurrences_append (N a b : String) (hN : Needle N)
    (he : endsOutside N.data a.data = true) :
    occurrences N (a ++ b) = occurrences N a + occurrences N b := by
  rw [occurrences_eq, occurrences_eq, occurrences_eq, String.data_append,
    occList_append _ _ _ hN.1 (Or.inl he)]

/-- Occurrences of a needle in the assembled text of a model without the word
`Signal`: those in the two fixed texts of the dispatch block when some
interface declares a signal, none otherwise. -/
theorem assembledText_count (N : String) (hN : Needle N)
    (hlit : Sealed N "// Generated by dbusgen, don't edit!\n" ∧ Sealed N "//\n"
      ∧ Sealed N "//   Methods\n" ∧ Sealed N "//   Properties\n" ∧ Sealed N "//   Signals\n"
      ∧ Sealed N "import \"github.com/godbus/dbus\"\n")
    (hlit2 : Sealed N "\t\t\t\x7d,\n" ∧ Sealed N "\t\t\x7d\n")
    (htail : Sealed N lookupTailText)
    (hce : endsOutside N.data signalContractText.data = true)
    (hhe : endsOutside N.data lookupHeadText.data = true)
    (rng : SignalMap → List (String × List Signal)) (hrng : ValidRange rng)
    (pkgName : String) (ifaces : List Interface) (hq : ModelNoSignalWord pkgName ifaces) :
    occurrences N (assembledText rng pkgName ifaces) =
      if ifaces.any (fun i => decide (i.Signals ≠ [])) then
        occurrences N signalContractText + occurrences N lookupHeadText
      else 0 := by
  have hU := userText_sealed N hN hlit pkgName ifaces hq
  have hiff := registryOf_length_pos ifaces
  by_cases h : (registryOf ifaces).length > 0
  · have hany : ifaces.any (fun i => decide (i.Signals ≠ [])) = true := by
      rw [List.any_eq_true]
      obtain ⟨i, hi, hne⟩ := hiff.1 h
      exact ⟨i, hi, by simpa using hne⟩
    have hC := sealed_append N _ _ hN (clauses_sealed N hN hlit2 rng hrng pkgName ifaces hq) htail
    have hsplit : assembledText rng pkgName ifaces =
        (headerText pkgName ifaces ++ String.join (ifaces.map ifaceText)) ++
          (signalContractText ++ (lookupHeadText ++
            (String.join ((lookupClauses (rng (registryOf ifaces))).map fun c =>
              clauseText c.1 c.2) ++ lookupTailText))) := by
      rw [assembledText, if_pos h, signalFuncsText]
      simp only [String.append_assoc]
    rw [hany, if_pos rfl, hsplit, occurrences_append N _ _ hN hU.2,
      occurrences_append N _ _ hN hce, occurrences_append N _ _ hN hhe, hU.1, hC.1]
    simp
  · have hany : ifaces.any (fun i => decide (i.Signals ≠ [])) = false := by
      rw [List.any_eq_false]
      intro i hi
      have : ¬ i.Signals ≠ [] := fun hne => h (hiff.2 ⟨i, hi, hne⟩)
      simpa using this
    rw [hany, assembledText, if_neg h, String.append_empty]
    simpa using hU.1


set_option maxRecDepth 1000000 in
/-- C8, the code at two models without any signal: with an interface named
`type Signal interface` whose method is named `func LookupSignal`, the
assembled text holds the first text five times and the second twice, in the
header and in the comments and the call of the binding; with a property whose
value binding is `myfunc` of type `LookupSignalKind`, no string of the model
holds `func LookupSignal` and the assembled text holds it once, across the
blank between name and type. -/
theorem names_can_hold_the_dispatch_texts :
    (∀ i ∈ [needleIface], i.Signals = [])
      ∧ occurrences "type Signal interface" (assembledText id "demo" [needleIface]) = 5
      ∧ occurrences "func LookupSignal" (assembledText id "demo" [needleIface]) = 2
      ∧ (∀ i ∈ [straddleIface], i.Signals = [])
      ∧ (∀ s ∈ ["demo", "org.example.Demo", "Demo", "Kind", "myfunc", "LookupSignalKind"],
          occurrences "func LookupSignal" s = 0)
      ∧ occurrences "func LookupSignal" (assembledText id "demo" [straddleIface]) = 1 := by
  refine ⟨by decide, by decide, by decide, by decide, by decide, by decide⟩

set_option maxRecDepth 1000000 in
/-- C8 as amended: for every model in which no string (the output name, and
every name, identifier and type of an interface, method, property, signal or
argument) holds the text `Signal`, the text `Print` assembles before
normalization holds `type Signal interface` exactly once and
`func LookupSignal` exactly once if at least one interface declares at least
one signal, and holds neither if no interface declares a signal, in whichever
order the registry is visited. The registry is not empty exactly when some
interface declares a signal. -/
theorem assemble_dispatch_count (rng : SignalMap → List (String × List Signal))
    (hrng : ValidRange rng) (pkgName : String) (ifaces : List Interface)
    (hq : ModelNoSignalWord pkgName ifaces) :
    assemble rng pkgName ifaces = .ok ⟨assembledText rng pkgName ifaces⟩
      ∧ occurrences "type Signal interface" (assembledText rng pkgName ifaces)
          = (if ifaces.any (fun i => decide (i.Signals ≠ [])) then 1 else 0)
      ∧ occurrences "func LookupSignal" (assembledText rng pkgName ifaces)
          = (if ifaces.any (fun i => decide (i.Signals ≠ [])) then 1 else 0)
      ∧ ((registryOf ifaces).length > 0 ↔ ∃ i ∈ ifaces, i.Signals ≠ []) := by
  refine ⟨assemble_eq rng pkgName ifaces, ?_, ?_, registryOf_length_pos ifaces⟩
  · have h := assembledText_count "type Signal interface" (by decide)
      ⟨by decide, by decide, by decide, by decide, by decide, by decide⟩
      ⟨by decide, by decide⟩ (by decide) (by decide) (by decide) rng hrng pkgName ifaces hq
    have h1 : occurrences "type Signal interface" signalContractText
        + occurrences "type Signal interface" lookupHeadText = 1 := by decide
    rw [h, h1]
  · have h := assembledText_count "func LookupSignal" (by decide)
      ⟨by decide, by decide, by decide, by decide, by decide, by decide⟩
      ⟨by decide, by decide⟩ (by decide) (by decide) (by decide) rng hrng pkgName ifaces hq
    have h1 : occurrences "func LookupSignal" signalContractText
        + occurrences "func LookupSignal" lookupHeadText = 1 := by decide
    rw [h, h1]

set_option maxRecDepth 1000000 in
/-- Witness of C8 as amended: `demoIface`, which declares a signal, with the
registry visited in order. -/
theorem assemble_dispatch_count_witness :
    ValidRange id ∧ ModelNoSignalWord "demo" [demoIface]
      ∧ occurrences "type Signal interface" (assembledText id "demo" [demoIface]) = 1
      ∧ occurrences "func LookupSignal" (assembledText id "demo" [demoIface]) = 1 :=
  ⟨fun m => List.Perm.refl m, by decide,
   (assemble_dispatch_count id (fun m => List.Perm.refl m) "demo" [demoIface]
      (by decide)).2.1.trans (by decide),
   (assemble_dispatch_count id (fun m => List.Perm.refl m) "demo" [demoIface]
      (by decide)).2.2.1.trans (by decide)⟩


end Printer
